import Mathlib

/-!
Verification of the natural-language statistics combiner
(`natural_language_stats_generator.py` from tensorflow-data-validation).

The Python module is shallowly embedded below.  Python `int` counters become
`Nat`, Python `float` values (always produced here by exact divisions of
nonnegative integers) become `Rat`, Python dicts become association lists in
insertion order, Python sets become `List`s (with `Nodup` hypotheses where
set-ness matters), and the two external sketches (`QuantilesSketch`,
`MisraGriesSketch`) are modelled by the exact multiset of values fed to them
(their state is a function of the `AddValues`/`Merge` call sequence; the
query side `GetQuantiles`/`Estimate` is external code and enters only as an
opaque parameter of the extraction function).
-/

namespace NLStatsGen

/-- A token is either an integer id or a string (Python `Union[int, Text]`).
Python equality between an `int` and a `str` is `False`, which matches
constructor disjointness here. -/
inductive Token where
  | int (n : Int) : Token
  | str (s : String) : Token
deriving DecidableEq, Repr

/-- Exact division of two natural numbers as a rational (the value of the
Python `float` division `a / b` with nonnegative integer operands).
`Rat.divInt` is used because, unlike `HDiv.hDiv` on `ℚ`, it reduces in the
kernel; `ratDivNat_eq_div` identifies it with `/`. -/
def ratDivNat (a b : Nat) : Rat := Rat.divInt a b

/-- Exact division of an integer by a natural number as a rational. -/
def ratDivInt (a : Int) (b : Nat) : Rat := Rat.divInt a b

/-- Multiplication of a rational by a natural number, in kernel-reducible
form; `ratMulNat_eq_mul` identifies it with `*`. -/
def ratMulNat (q : Rat) (n : Nat) : Rat := Rat.divInt (q.num * n) q.den

/-- Python `int()` applied to a rational: truncation toward zero
(`pyInt_eq_floor`: on nonnegative arguments this is the floor). -/
def pyInt (q : Rat) : Int :=
  if 0 ≤ q.num then ((q.num.natAbs / q.den : Nat) : Int)
  else -((q.num.natAbs / q.den : Nat) : Int)

/-- A `collections.Counter` with `Int` keys, kept as an association list in
insertion order.  `counterIncr c k n` is `c[k] += n` (inserting the key at the
end on first access, as a Python dict does). -/
def counterIncr (c : List (Int × Nat)) (k : Int) (n : Nat) : List (Int × Nat) :=
  match c with
  | [] => [(k, n)]
  | (k', v) :: rest => if k' = k then (k', v + n) :: rest else (k', v) :: counterIncr rest k n

/-- `self.positions += other.positions` on counters with positive counts:
keyed addition, new keys appended in the right operand's order. -/
def counterAdd (c d : List (Int × Nat)) : List (Int × Nat) :=
  d.foldl (fun acc kv => counterIncr acc kv.1 kv.2) c

/-- `_TokenStats`: statistics tracked for one individual token. -/
structure TokenStats where
  frequency : Nat := 0
  num_sequences : Nat := 0
  per_sequence_min_frequency : Option Nat := none
  per_sequence_max_frequency : Option Nat := none
  positions : List (Int × Nat) := []
deriving DecidableEq, Repr

/-- The `None`-aware combination used for the per-sequence min/max bounds in
`_TokenStats.__iadd__`: if both sides are present apply `fn`; if the left is
`None` adopt the right; otherwise keep the left. -/
def optMergeWith (fn : Nat → Nat → Nat) : Option Nat → Option Nat → Option Nat
  | some a, some b => some (fn a b)
  | none, o => o
  | some a, none => some a

/-- `_TokenStats.__iadd__` (merge of two per-token statistics). -/
def TokenStats.iadd (self other : TokenStats) : TokenStats where
  frequency := self.frequency + other.frequency
  num_sequences := self.num_sequences + other.num_sequences
  per_sequence_min_frequency :=
    optMergeWith min self.per_sequence_min_frequency other.per_sequence_min_frequency
  per_sequence_max_frequency :=
    optMergeWith max self.per_sequence_max_frequency other.per_sequence_max_frequency
  positions := counterAdd self.positions other.positions

/-- Lookup in the `token_statistics` dict (association list, first match). -/
def tsLookup (m : List (Token × TokenStats)) (t : Token) : Option TokenStats :=
  match m with
  | [] => none
  | (k, v) :: rest => if k = t then some v else tsLookup rest t

/-- `accumulator.token_statistics[t]` mutation on a `defaultdict(_TokenStats)`:
apply `f` to the entry for `t`, inserting a default-constructed entry first if
the key is absent (appended at the end, as dict insertion does). -/
def tsModify (m : List (Token × TokenStats)) (t : Token) (f : TokenStats → TokenStats) :
    List (Token × TokenStats) :=
  match m with
  | [] => [(t, f {})]
  | (k, v) :: rest => if k = t then (k, f v) :: rest else (k, v) :: tsModify rest t f

/-- One step of `_PartialNLStats.__iadd__`'s token-statistics loop:
`if t not in self: self[t] = other[t] else: self[t] += other[t]`. -/
def tsInsertOrAdd (m : List (Token × TokenStats)) (t : Token) (s : TokenStats) :
    List (Token × TokenStats) :=
  match m with
  | [] => [(t, s)]
  | (k, v) :: rest =>
    if k = t then (k, TokenStats.iadd v s) :: rest else (k, v) :: tsInsertOrAdd rest t s

/-- The token-statistics loop of `_PartialNLStats.__iadd__`. -/
def tsMergeInto (self other : List (Token × TokenStats)) : List (Token × TokenStats) :=
  other.foldl (fun acc kv => tsInsertOrAdd acc kv.1 kv.2) self

/-- `_NUM_REPORTED_SEQUENCES_PER_TYPE`. -/
def NUM_REPORTED_SEQUENCES_PER_TYPE : Nat := 5

/-- A reported-sequence sample: the resolved sequence together with its scalar
metric (coverage or average token length). -/
abbrev ReportedSequence := List Token × Rat

/-- `_sort_and_truncate_reported_sequence`: stable sort ascending by the metric
(`key=lambda x: x[1]`; Python's sort is stable, and `List.insertionSort` with a
`≤`-like relation is a stable sort), then keep the first
`_NUM_REPORTED_SEQUENCES_PER_TYPE` entries. -/
def sort_and_truncate_reported_sequence (sequence : List ReportedSequence) :
    List ReportedSequence :=
  (List.insertionSort (fun a b => a.2 ≤ b.2) sequence).take NUM_REPORTED_SEQUENCES_PER_TYPE

/-- `_PartialNLStats`: the accumulator.  The two sketches are modelled by the
lists of values fed to them (`AddValues` appends, `Merge` concatenates). -/
structure PartialNLStats where
  invalidate : Bool := false
  num_in_vocab_tokens : Nat := 0
  total_num_tokens : Nat := 0
  sum_in_vocab_token_lengths : Nat := 0
  num_examples : Nat := 0
  vocab_token_length_quantiles : List Nat := []
  token_occurrence_counts : List String := []
  token_statistics : List (Token × TokenStats) := []
  reported_sequences_coverage : List ReportedSequence := []
  reported_sequences_avg_token_length : List ReportedSequence := []
deriving DecidableEq, Repr

/-- `_PartialNLStats.__iadd__` (merge of two accumulators into the left one). -/
def PartialNLStats.iadd (self other : PartialNLStats) : PartialNLStats where
  invalidate := self.invalidate || other.invalidate
  num_in_vocab_tokens := self.num_in_vocab_tokens + other.num_in_vocab_tokens
  total_num_tokens := self.total_num_tokens + other.total_num_tokens
  sum_in_vocab_token_lengths := self.sum_in_vocab_token_lengths + other.sum_in_vocab_token_lengths
  num_examples := self.num_examples + other.num_examples
  vocab_token_length_quantiles :=
    self.vocab_token_length_quantiles ++ other.vocab_token_length_quantiles
  token_occurrence_counts := self.token_occurrence_counts ++ other.token_occurrence_counts
  token_statistics := tsMergeInto self.token_statistics other.token_statistics
  reported_sequences_coverage :=
    sort_and_truncate_reported_sequence
      (self.reported_sequences_coverage ++ other.reported_sequences_coverage)
  reported_sequences_avg_token_length :=
    sort_and_truncate_reported_sequence
      (self.reported_sequences_avg_token_length ++ other.reported_sequences_avg_token_length)

/-- `NLStatsGenerator.merge_accumulators`: fold `__iadd__` over the
accumulators, starting from a fresh empty accumulator. -/
def mergeAccumulators (accumulators : List PartialNLStats) : PartialNLStats :=
  accumulators.foldl PartialNLStats.iadd {}

/-- `_update_accumulator_with_in_vocab_string_tokens`. -/
def update_accumulator_with_in_vocab_string_tokens (accumulator : PartialNLStats)
    (token_list : List String) : PartialNLStats :=
  { accumulator with
    num_in_vocab_tokens := accumulator.num_in_vocab_tokens + token_list.length
    token_occurrence_counts := accumulator.token_occurrence_counts ++ token_list
    sum_in_vocab_token_lengths :=
      accumulator.sum_in_vocab_token_lengths + (token_list.map String.length).sum
    vocab_token_length_quantiles :=
      accumulator.vocab_token_length_quantiles ++ token_list.map String.length }

/-- `[float(i) / len(row) for i, v in enumerate(row) if v == t]`. -/
def norm_occurrence_indices (row : List Token) (t : Token) : List Rat :=
  ((row.enum.filter (fun p => decide (p.2 = t))).map
    (fun p => ratDivNat p.1 row.length))

/-- The loop body of `_update_accumulator_with_token_statistics` for one
tracked token `t`: the composite mutation applied to the (default-inserted)
`token_statistics[t]` entry.  Note that the min/max update happens even when
the token has zero occurrences in the row. -/
def token_stats_row_update (num_histogram_buckets : Nat) (row : List Token) (t : Token)
    (s : TokenStats) : TokenStats :=
  let norm_indices := norm_occurrence_indices row t
  let num_occur := norm_indices.length
  { s with
    frequency := s.frequency + num_occur
    num_sequences := s.num_sequences + (if num_occur ≠ 0 then 1 else 0)
    per_sequence_min_frequency :=
      some (match s.per_sequence_min_frequency with
            | some a => min a num_occur
            | none => num_occur)
    per_sequence_max_frequency :=
      some (match s.per_sequence_max_frequency with
            | some a => max a num_occur
            | none => num_occur)
    positions := norm_indices.foldl
      (fun c i => counterIncr c (pyInt (ratMulNat i num_histogram_buckets)) 1) s.positions }

/-- `_update_accumulator_with_token_statistics`: fold the per-token update over
the tracked-token set. -/
def update_accumulator_with_token_statistics (accumulator : PartialNLStats)
    (row : List Token) (tokens : List Token) (num_histogram_buckets : Nat) : PartialNLStats :=
  { accumulator with
    token_statistics := tokens.foldl
      (fun m t => tsModify m t (token_stats_row_update num_histogram_buckets row t))
      accumulator.token_statistics }

/-- `_update_accumulator_reported_sequences`'s per-metric step: append the
candidate, then sort and truncate. -/
def insert_reported_sequence (cur_list : List ReportedSequence) (cand : ReportedSequence) :
    List ReportedSequence :=
  sort_and_truncate_reported_sequence (cur_list ++ [cand])

/-- `_update_accumulator_reported_sequences`. -/
def update_accumulator_reported_sequences (accumulator : PartialNLStats)
    (resolved_entry : List Token) (oov_string_tokens : List String) : PartialNLStats :=
  let token_lens := resolved_entry.filterMap (fun i =>
    match i with
    | Token.str s => if s ∈ oov_string_tokens then none else some s.length
    | Token.int _ => none)
  let coverage : Rat := ratDivNat token_lens.length resolved_entry.length
  let avg_token_len : Rat :=
    if token_lens ≠ [] then ratDivNat token_lens.sum token_lens.length else 0
  { accumulator with
    reported_sequences_coverage :=
      insert_reported_sequence accumulator.reported_sequences_coverage
        (resolved_entry, coverage)
    reported_sequences_avg_token_length :=
      insert_reported_sequence accumulator.reported_sequences_avg_token_length
        (resolved_entry, avg_token_len) }

/-- Lookup in a vocabulary dict `Dict[Text, int]` (association list). -/
def vocabGet (v : List (String × Int)) (k : String) : Option Int :=
  (v.find? (fun p => decide (p.1 = k))).map Prod.snd

/-- Lookup in a reverse vocabulary dict `Dict[int, Text]`. -/
def rvocabGet (v : List (Int × String)) (k : Int) : Option String :=
  (v.find? (fun p => decide (p.1 = k))).map Prod.snd

/-- Python truthiness of an optional dict: `if vocab:` is true when the dict is
present and non-empty. -/
def dictTruthy {α : Type} (o : Option (List α)) : Bool :=
  match o with
  | some l => !l.isEmpty
  | none => false

/-- `[rvocab.get(r, r) for r in row]` (used when `if rvocab:` is true),
otherwise `resolved_row = row`. -/
def resolve_int_row (rvocab : Option (List (Int × String))) (row : List Int) : List Token :=
  if dictTruthy rvocab then
    row.map (fun r =>
      match rvocabGet (rvocab.getD []) r with
      | some s => Token.str s
      | none => Token.int r)
  else
    row.map Token.int

/-- The token-counting loop of `_compute_int_statistics`, hoisted into a pure
fold returning (number of `total_num_tokens` increments,
`filtered_entry_str_list`).  The loop bodies are otherwise verbatim. -/
def int_token_scan (row : List Int) (excluded_string_tokens : List String)
    (excluded_int_tokens : List Int) (oov_string_tokens : List String)
    (rvocab : Option (List (Int × String))) : Nat × List String :=
  row.foldl (fun st entry =>
    if entry ∈ excluded_int_tokens then st
    else
      match rvocab with
      | some rv =>
        match rvocabGet rv entry with
        | some entry_str =>
          if entry_str ∈ excluded_string_tokens then st
          else if entry_str ∉ oov_string_tokens then (st.1 + 1, st.2 ++ [entry_str])
          else (st.1 + 1, st.2)
        | none => (st.1 + 1, st.2)
      | none => (st.1 + 1, st.2)) (0, [])

/-- `_compute_int_statistics` (the `unused_vocab` parameter of the source is
omitted). -/
def compute_int_statistics (row : List Int) (accumulator : PartialNLStats)
    (excluded_string_tokens : List String) (excluded_int_tokens : List Int)
    (oov_string_tokens : List String) (rvocab : Option (List (Int × String)))
    (int_tokens : List Int) (string_tokens : List String)
    (num_histogram_buckets : Nat) : PartialNLStats :=
  let accumulator := { accumulator with num_examples := accumulator.num_examples + 1 }
  let accumulator :=
    if row = [] then accumulator
    else
      let accumulator := update_accumulator_with_token_statistics accumulator
        (row.map Token.int) (int_tokens.map Token.int) num_histogram_buckets
      let resolved_row := resolve_int_row rvocab row
      let accumulator := update_accumulator_with_token_statistics accumulator
        resolved_row (string_tokens.map Token.str) num_histogram_buckets
      update_accumulator_reported_sequences accumulator resolved_row oov_string_tokens
  let scan := int_token_scan row excluded_string_tokens excluded_int_tokens
    oov_string_tokens rvocab
  let accumulator :=
    { accumulator with total_num_tokens := accumulator.total_num_tokens + scan.1 }
  if scan.2 = [] then accumulator
  else update_accumulator_with_in_vocab_string_tokens accumulator scan.2

/-- The token-counting loop of `_compute_str_statistics`, hoisted like
`int_token_scan`. -/
def str_token_scan (row : List String) (excluded_string_tokens : List String)
    (excluded_int_tokens : List Int) (oov_string_tokens : List String)
    (vocab : Option (List (String × Int))) : Nat × List String :=
  row.foldl (fun st entry =>
    if entry ∈ excluded_string_tokens then st
    else if (match vocab with
             | some v =>
               match vocabGet v entry with
               | some iv => decide (iv ∈ excluded_int_tokens)
               | none => false
             | none => false) then st
    else if entry ∉ oov_string_tokens then (st.1 + 1, st.2 ++ [entry])
    else (st.1 + 1, st.2)) (0, [])

/-- `[vocab.get(r, r) for r in row]` (used when `if vocab:` is true). -/
def resolve_str_row (vocab : Option (List (String × Int))) (row : List String) : List Token :=
  row.map (fun r =>
    match vocabGet (vocab.getD []) r with
    | some i => Token.int i
    | none => Token.str r)

/-- `_compute_str_statistics` (the `unused_rvocab` parameter of the source is
omitted; `six.ensure_text` is the identity on the embedded strings). -/
def compute_str_statistics (row : List String) (accumulator : PartialNLStats)
    (excluded_string_tokens : List String) (excluded_int_tokens : List Int)
    (oov_string_tokens : List String) (vocab : Option (List (String × Int)))
    (int_tokens : List Int) (string_tokens : List String)
    (num_histogram_buckets : Nat) : PartialNLStats :=
  let accumulator := { accumulator with num_examples := accumulator.num_examples + 1 }
  let accumulator :=
    if row = [] then accumulator
    else
      let accumulator := update_accumulator_with_token_statistics accumulator
        (row.map Token.str) (string_tokens.map Token.str) num_histogram_buckets
      let accumulator := update_accumulator_reported_sequences accumulator
        (row.map Token.str) oov_string_tokens
      if dictTruthy vocab then
        update_accumulator_with_token_statistics accumulator
          (resolve_str_row vocab row) (int_tokens.map Token.int) num_histogram_buckets
      else accumulator
  let scan := str_token_scan row excluded_string_tokens excluded_int_tokens
    oov_string_tokens vocab
  let accumulator :=
    { accumulator with total_num_tokens := accumulator.total_num_tokens + scan.1 }
  if scan.2 = [] then accumulator
  else update_accumulator_with_in_vocab_string_tokens accumulator scan.2

/-- One bucket of a `statistics_pb2` histogram. -/
structure HistogramBucket where
  low_value : Rat
  high_value : Rat
  sample_count : Rat
deriving DecidableEq, Repr

/-- One bucket of a `statistics_pb2` rank histogram. -/
structure RankBucket where
  low_rank : Nat
  high_rank : Nat
  label : String
  sample_count : Rat
deriving DecidableEq, Repr

/-- The names of the `custom_stats` entries emitted by `extract_output` and
`_populate_token_statistics`.  Each constructor corresponds to one of the
distinct Python name templates (`nl_feature_coverage`, ...,
`nl_{token}_token_frequency`, ...); the token-indexed constructors carry the
token substituted into the template. -/
inductive CustomStatName where
  | nl_feature_coverage
  | nl_avg_token_length
  | nl_token_length_histogram
  | nl_rank_tokens
  | nl_reported_sequences
  | nl_statistics
  | nl_token_frequency (t : Token)
  | nl_fraction_of_examples (t : Token)
  | nl_per_sequence_min_frequency (t : Token)
  | nl_per_sequence_max_frequency (t : Token)
  | nl_per_sequence_avg_frequency (t : Token)
  | nl_token_positions (t : Token)
deriving DecidableEq, Repr

/-- The value of a `custom_stats` entry.  `strv` keeps the reported sequences
(the Python code stores their line-joined `str()` rendering); `any_nl` stands
for the packed `NaturalLanguageStatistics` Any-proto, whose contents no claim
inspects. -/
inductive CustomStatValue where
  | num (v : Rat)
  | strv (sequences : List (List Token))
  | histogram (h : List HistogramBucket)
  | rank_histogram (h : List RankBucket)
  | any_nl
deriving DecidableEq, Repr

/-- One `custom_stats` entry. -/
structure CustomStat where
  name : CustomStatName
  value : CustomStatValue
deriving DecidableEq, Repr

/-- The parts of a `FeatureNameStatistics` proto that this generator
populates: its `custom_stats` list.  A freshly constructed proto has no
entries. -/
structure FeatureNameStatistics where
  custom_stats : List CustomStat := []
deriving DecidableEq, Repr

/-- The `TokenStatistics` sub-proto populated by `_populate_token_statistics`.
Unset numeric proto fields read as 0. -/
structure TokenStatisticsProto where
  token : Token
  frequency : Rat := 0
  fraction_of_sequences : Rat := 0
  per_sequence_min_frequency : Rat := 0
  per_sequence_max_frequency : Rat := 0
  per_sequence_avg_frequency : Rat := 0
  positions : List HistogramBucket := []
deriving DecidableEq, Repr

/-- `_populate_token_position_histogram`: sort the position counter items by
bucket index, then emit one histogram bucket per item with bounds
`[k / B, (k+1) / B)`. -/
def populate_token_position_histogram (stats : TokenStats) (num_histogram_buckets : Nat) :
    List HistogramBucket :=
  let positions := List.insertionSort (fun a b => a.1 ≤ b.1) stats.positions
  positions.map (fun kv =>
    { low_value := ratDivInt kv.1 num_histogram_buckets
      high_value := ratDivInt (kv.1 + 1) num_histogram_buckets
      sample_count := (kv.2 : Rat) })

/-- `_populate_token_statistics`: returns the populated `TokenStatistics`
sub-proto together with the `custom_stats` entries appended to the feature
statistics.  When `stats.num_sequences` is zero nothing beyond the token name
is populated.  (When `num_sequences > 0` the source assigns
`stats.per_sequence_min_frequency` / `..._max_frequency` directly into float
proto fields; a `None` there would raise, and on accumulators produced by this
generator the bounds are always set once the token map has an entry, so the
embedding reads them with `getD 0`.) -/
def populate_token_statistics (name : Token) (num_histogram_buckets : Nat)
    (num_examples : Nat) (stats : TokenStats) : TokenStatisticsProto × List CustomStat :=
  if stats.num_sequences ≠ 0 then
    let token_proto : TokenStatisticsProto :=
      { token := name
        frequency := (stats.frequency : Rat)
        fraction_of_sequences := ratDivNat stats.num_sequences num_examples
        per_sequence_min_frequency := ((stats.per_sequence_min_frequency.getD 0 : Nat) : Rat)
        per_sequence_max_frequency := ((stats.per_sequence_max_frequency.getD 0 : Nat) : Rat)
        per_sequence_avg_frequency := ratDivNat stats.frequency stats.num_sequences
        positions := populate_token_position_histogram stats num_histogram_buckets }
    (token_proto,
      [{ name := CustomStatName.nl_token_frequency name
         value := CustomStatValue.num token_proto.frequency },
       { name := CustomStatName.nl_fraction_of_examples name
         value := CustomStatValue.num token_proto.fraction_of_sequences },
       { name := CustomStatName.nl_per_sequence_min_frequency name
         value := CustomStatValue.num token_proto.per_sequence_min_frequency },
       { name := CustomStatName.nl_per_sequence_max_frequency name
         value := CustomStatValue.num token_proto.per_sequence_max_frequency },
       { name := CustomStatName.nl_per_sequence_avg_frequency name
         value := CustomStatValue.num token_proto.per_sequence_avg_frequency },
       { name := CustomStatName.nl_token_positions name
         value := CustomStatValue.histogram token_proto.positions }])
  else ({ token := name }, [])

/-- `_populate_token_rank_histogram` applied to the entries returned by the
Misra-Gries sketch's `Estimate`: enumerate the first
`num_rank_histogram_buckets` entries. -/
def populate_token_rank_histogram (entries : List (String × Rat))
    (num_rank_histogram_buckets : Nat) : List RankBucket :=
  (entries.take num_rank_histogram_buckets).enum.map (fun p =>
    { low_rank := p.1, high_rank := p.1, label := p.2.1, sample_count := p.2.2 })

/-- The configuration of `NLStatsGenerator` relevant to `extract_output`,
together with the query side of the two external sketches, which is code
outside this module and enters as opaque functions: `get_quantiles_histogram`
stands for `GetQuantiles` + `quantiles_util.generate_quantiles_histogram`
(arguments: values fed to the sketch, `num_in_vocab_tokens`, bucket count),
and `mg_estimate` stands for `MisraGriesSketch.Estimate` (argument: values fed
to the sketch). -/
structure NLGenConfig where
  num_histogram_buckets : Nat
  num_quantiles_histogram_buckets : Nat
  num_rank_histogram_buckets : Nat
  get_quantiles_histogram : List Nat → Nat → Nat → List HistogramBucket
  mg_estimate : List String → List (String × Rat)

/-- `NLStatsGenerator.extract_output`. -/
def extract_output (cfg : NLGenConfig) (accumulator : PartialNLStats) :
    FeatureNameStatistics :=
  if accumulator.invalidate then {}
  else
    let coverage_stats : List CustomStat :=
      if accumulator.total_num_tokens ≠ 0 then
        [{ name := CustomStatName.nl_feature_coverage
           value := CustomStatValue.num
             (ratDivNat accumulator.num_in_vocab_tokens accumulator.total_num_tokens) }]
      else []
    let avg_len_stats : List CustomStat :=
      if accumulator.num_in_vocab_tokens ≠ 0 then
        [{ name := CustomStatName.nl_avg_token_length
           value := CustomStatValue.num
             (ratDivNat accumulator.sum_in_vocab_token_lengths
               accumulator.num_in_vocab_tokens) }]
      else []
    let len_hist_stats : List CustomStat :=
      if cfg.num_quantiles_histogram_buckets ≠ 0 then
        let h := cfg.get_quantiles_histogram accumulator.vocab_token_length_quantiles
          accumulator.num_in_vocab_tokens cfg.num_quantiles_histogram_buckets
        if h ≠ [] then
          [{ name := CustomStatName.nl_token_length_histogram
             value := CustomStatValue.histogram h }]
        else []
      else []
    let rank_hist_stats : List CustomStat :=
      if cfg.num_rank_histogram_buckets ≠ 0 then
        let rb := populate_token_rank_histogram
          (cfg.mg_estimate accumulator.token_occurrence_counts) cfg.num_rank_histogram_buckets
        if rb ≠ [] then
          [{ name := CustomStatName.nl_rank_tokens
             value := CustomStatValue.rank_histogram rb }]
        else []
      else []
    let token_stats : List CustomStat :=
      if accumulator.token_statistics ≠ [] then
        (accumulator.token_statistics.map (fun kv =>
          (populate_token_statistics kv.1 cfg.num_histogram_buckets
            accumulator.num_examples kv.2).2)).flatten
      else []
    let reported := accumulator.reported_sequences_coverage ++
      accumulator.reported_sequences_avg_token_length
    let reported_stats : List CustomStat :=
      if reported ≠ [] then
        [{ name := CustomStatName.nl_reported_sequences
           value := CustomStatValue.strv (reported.map Prod.fst) }]
      else []
    { custom_stats := coverage_stats ++ avg_len_stats ++ len_hist_stats ++
        rank_hist_stats ++ token_stats ++ reported_stats ++
        [{ name := CustomStatName.nl_statistics, value := CustomStatValue.any_nl }] }

/-- The accumulators reachable through the generator's lifecycle:
`create_accumulator`, the per-row updates performed by `add_input` (including
its invalidation paths and null-row skips), and `merge_accumulators`
(a fold of `__iadd__` whose base case is the empty accumulator, covered by
`create` and `merge`).  The tracked-token sets are Python sets, hence the
`Nodup` hypotheses. -/
inductive Reachable : PartialNLStats → Prop where
  | create : Reachable {}
  | int_row (acc : PartialNLStats) (row : List Int) (excluded_string_tokens : List String)
      (excluded_int_tokens : List Int) (oov_string_tokens : List String)
      (rvocab : Option (List (Int × String))) (int_tokens : List Int)
      (string_tokens : List String) (num_histogram_buckets : Nat)
      (hi : int_tokens.Nodup) (hs : string_tokens.Nodup) (h : Reachable acc) :
      Reachable (compute_int_statistics row acc excluded_string_tokens excluded_int_tokens
        oov_string_tokens rvocab int_tokens string_tokens num_histogram_buckets)
  | str_row (acc : PartialNLStats) (row : List String) (excluded_string_tokens : List String)
      (excluded_int_tokens : List Int) (oov_string_tokens : List String)
      (vocab : Option (List (String × Int))) (int_tokens : List Int)
      (string_tokens : List String) (num_histogram_buckets : Nat)
      (hi : int_tokens.Nodup) (hs : string_tokens.Nodup) (h : Reachable acc) :
      Reachable (compute_str_statistics row acc excluded_string_tokens excluded_int_tokens
        oov_string_tokens vocab int_tokens string_tokens num_histogram_buckets)
  | invalid (acc : PartialNLStats) (h : Reachable acc) :
      Reachable { acc with invalidate := true }
  | merge (a b : PartialNLStats) (ha : Reachable a) (hb : Reachable b) :
      Reachable (a.iadd b)

/-! ### Arithmetic bridging lemmas -/

theorem ratDivNat_eq_div (a b : Nat) : ratDivNat a b = (a : Rat) / (b : Rat) := by
  rw [ratDivNat, Rat.divInt_eq_div]
  push_cast
  rfl

theorem ratDivInt_eq_div (a : Int) (b : Nat) : ratDivInt a b = (a : Rat) / (b : Rat) := by
  rw [ratDivInt, Rat.divInt_eq_div]
  push_cast
  rfl

theorem ratMulNat_eq_mul (q : Rat) (n : Nat) : ratMulNat q n = q * (n : Rat) := by
  rw [ratMulNat, Rat.divInt_eq_div]
  have h : ((q.num * n : Int) : Rat) / ((q.den : Int) : Rat) = ((q.num : Rat) / q.den) * n := by
    push_cast
    ring
  rw [h, Rat.num_div_den]

theorem pyInt_eq_floor (q : Rat) (h : 0 ≤ q) : pyInt q = ⌊q⌋ := by
  have hn : 0 ≤ q.num := Rat.num_nonneg.mpr h
  obtain ⟨m, hm⟩ := Int.eq_ofNat_of_zero_le hn
  rw [Rat.floor_def, pyInt, if_pos hn, hm]
  simp only [Int.natAbs_ofNat]
  omega
/-! ### Association-list lemmas for the token-statistics dict -/

theorem tsLookup_nil (t : Token) : tsLookup [] t = none := rfl

theorem tsLookup_cons (k : Token) (v : TokenStats) (rest : List (Token × TokenStats))
    (t : Token) : tsLookup ((k, v) :: rest) t = if k = t then some v else tsLookup rest t := rfl

theorem tsModify_nil (t : Token) (f : TokenStats → TokenStats) :
    tsModify [] t f = [(t, f {})] := rfl

theorem tsModify_cons (k : Token) (v : TokenStats) (rest : List (Token × TokenStats))
    (t : Token) (f : TokenStats → TokenStats) :
    tsModify ((k, v) :: rest) t f =
      if k = t then (k, f v) :: rest else (k, v) :: tsModify rest t f := rfl

theorem tsInsertOrAdd_nil (t : Token) (s : TokenStats) : tsInsertOrAdd [] t s = [(t, s)] := rfl

theorem tsInsertOrAdd_cons (k : Token) (v : TokenStats) (rest : List (Token × TokenStats))
    (t : Token) (s : TokenStats) :
    tsInsertOrAdd ((k, v) :: rest) t s =
      if k = t then (k, TokenStats.iadd v s) :: rest else (k, v) :: tsInsertOrAdd rest t s := rfl

theorem tsLookup_eq_none_iff (m : List (Token × TokenStats)) (t : Token) :
    tsLookup m t = none ↔ t ∉ m.map Prod.fst := by
  induction m with
  | nil => simp [tsLookup]
  | cons kv rest ih =>
    obtain ⟨k, v⟩ := kv
    rw [tsLookup_cons]
    by_cases hk : k = t
    · subst hk
      simp
    · simp only [if_neg hk, List.map_cons, List.mem_cons, ih]
      constructor
      · rintro h (h1 | h2)
        · exact hk h1.symm
        · exact h h2
      · intro h hm
        exact h (Or.inr hm)

theorem tsLookup_tsModify (m : List (Token × TokenStats)) (t : Token)
    (f : TokenStats → TokenStats) (u : Token) :
    tsLookup (tsModify m t f) u =
      if u = t then some (f ((tsLookup m t).getD {})) else tsLookup m u := by
  induction m with
  | nil =>
    rw [tsModify_nil, tsLookup_cons, tsLookup_nil, tsLookup_nil]
    by_cases h : u = t
    · subst h
      rw [if_pos rfl, if_pos rfl]
      rfl
    · rw [if_neg (fun hh => h hh.symm), if_neg h]
  | cons kv rest ih =>
    obtain ⟨k, v⟩ := kv
    by_cases hk : k = t
    · subst hk
      rw [tsModify_cons, if_pos rfl, tsLookup_cons, tsLookup_cons, tsLookup_cons, if_pos rfl]
      by_cases hu : k = u
      · subst hu
        rw [if_pos rfl, if_pos rfl]
        rfl
      · rw [if_neg hu, if_neg (fun hh => hu hh.symm), if_neg hu]
    · rw [tsModify_cons, if_neg hk, tsLookup_cons, tsLookup_cons, tsLookup_cons, if_neg hk, ih]
      by_cases hu : k = u
      · subst hu
        rw [if_pos rfl, if_neg (fun hh : k = t => hk hh), if_pos rfl]
      · rw [if_neg hu]
        by_cases hut : u = t
        · rw [if_pos hut, if_pos hut]
        · rw [if_neg hut, if_neg hut, if_neg hu]

theorem tsModify_keys (m : List (Token × TokenStats)) (t : Token)
    (f : TokenStats → TokenStats) :
    (tsModify m t f).map Prod.fst =
      if t ∈ m.map Prod.fst then m.map Prod.fst else m.map Prod.fst ++ [t] := by
  induction m with
  | nil => simp [tsModify_nil]
  | cons kv rest ih =>
    obtain ⟨k, v⟩ := kv
    rw [tsModify_cons]
    by_cases hk : k = t
    · subst hk
      simp
    · rw [if_neg hk]
      simp only [List.map_cons, ih]
      by_cases hm : t ∈ rest.map Prod.fst
      · rw [if_pos hm, if_pos (List.mem_cons_of_mem k hm)]
      · rw [if_neg hm, if_neg (fun hmem => by
          rcases List.mem_cons.mp hmem with h1 | h2
          · exact hk h1.symm
          · exact hm h2), List.cons_append]

theorem tsModify_keys_nodup (m : List (Token × TokenStats)) (t : Token)
    (f : TokenStats → TokenStats) (h : (m.map Prod.fst).Nodup) :
    ((tsModify m t f).map Prod.fst).Nodup := by
  rw [tsModify_keys]
  by_cases hm : t ∈ m.map Prod.fst
  · simpa [hm] using h
  · rw [if_neg hm]
    exact List.Nodup.append h (List.nodup_singleton t)
      (fun a ha hb => hm ((List.mem_singleton.mp hb) ▸ ha))

theorem tsLookup_tsInsertOrAdd (m : List (Token × TokenStats)) (t : Token) (s : TokenStats)
    (u : Token) :
    tsLookup (tsInsertOrAdd m t s) u =
      if u = t then
        some (match tsLookup m t with
              | some v => TokenStats.iadd v s
              | none => s)
      else tsLookup m u := by
  induction m with
  | nil =>
    rw [tsInsertOrAdd_nil, tsLookup_cons, tsLookup_nil, tsLookup_nil]
    by_cases h : u = t
    · subst h
      rw [if_pos rfl]
    · rw [if_neg (fun hh => h hh.symm), if_neg h]
  | cons kv rest ih =>
    obtain ⟨k, v⟩ := kv
    by_cases hk : k = t
    · subst hk
      rw [tsInsertOrAdd_cons, if_pos rfl, tsLookup_cons, tsLookup_cons, tsLookup_cons,
        if_pos rfl]
      by_cases hu : k = u
      · subst hu
        rw [if_pos rfl, if_pos rfl]
      · rw [if_neg hu, if_neg (fun hh => hu hh.symm), if_neg hu]
    · rw [tsInsertOrAdd_cons, if_neg hk, tsLookup_cons, tsLookup_cons, tsLookup_cons,
        if_neg hk, ih]
      by_cases hu : k = u
      · subst hu
        rw [if_pos rfl, if_neg (fun hh : k = t => hk hh), if_pos rfl]
      · rw [if_neg hu]
        by_cases hut : u = t
        · rw [if_pos hut, if_pos hut]
        · rw [if_neg hut, if_neg hut, if_neg hu]

theorem tsInsertOrAdd_keys (m : List (Token × TokenStats)) (t : Token) (s : TokenStats) :
    (tsInsertOrAdd m t s).map Prod.fst =
      if t ∈ m.map Prod.fst then m.map Prod.fst else m.map Prod.fst ++ [t] := by
  induction m with
  | nil => simp [tsInsertOrAdd_nil]
  | cons kv rest ih =>
    obtain ⟨k, v⟩ := kv
    rw [tsInsertOrAdd_cons]
    by_cases hk : k = t
    · subst hk
      simp
    · rw [if_neg hk]
      simp only [List.map_cons, ih]
      by_cases hm : t ∈ rest.map Prod.fst
      · rw [if_pos hm, if_pos (List.mem_cons_of_mem k hm)]
      · rw [if_neg hm, if_neg (fun hmem => by
          rcases List.mem_cons.mp hmem with h1 | h2
          · exact hk h1.symm
          · exact hm h2), List.cons_append]

theorem tsInsertOrAdd_keys_nodup (m : List (Token × TokenStats)) (t : Token) (s : TokenStats)
    (h : (m.map Prod.fst).Nodup) : ((tsInsertOrAdd m t s).map Prod.fst).Nodup := by
  rw [tsInsertOrAdd_keys]
  by_cases hm : t ∈ m.map Prod.fst
  · simpa [hm] using h
  · rw [if_neg hm]
    exact List.Nodup.append h (List.nodup_singleton t)
      (fun a ha hb => hm ((List.mem_singleton.mp hb) ▸ ha))

/-- The key-wise combination realised by the token-statistics merge loop. -/
def optTS (x y : Option TokenStats) : Option TokenStats :=
  match y with
  | some v =>
    some (match x with
          | some w => TokenStats.iadd w v
          | none => v)
  | none => x

theorem tsLookup_tsMergeInto (m l : List (Token × TokenStats))
    (hl : (l.map Prod.fst).Nodup) (t : Token) :
    tsLookup (tsMergeInto m l) t = optTS (tsLookup m t) (tsLookup l t) := by
  induction l generalizing m with
  | nil =>
    have hm : tsMergeInto m [] = m := rfl
    rw [hm, tsLookup_nil]
    cases h : tsLookup m t <;> rfl
  | cons kv rest ih =>
    obtain ⟨k, v⟩ := kv
    simp only [List.map_cons, List.nodup_cons] at hl
    have hstep : tsMergeInto m ((k, v) :: rest) = tsMergeInto (tsInsertOrAdd m k v) rest := rfl
    rw [hstep, ih (tsInsertOrAdd m k v) hl.2, tsLookup_tsInsertOrAdd, tsLookup_cons]
    by_cases ht : t = k
    · subst ht
      have hnone : tsLookup rest t = none := (tsLookup_eq_none_iff rest t).mpr hl.1
      rw [hnone, if_pos rfl, if_pos rfl]
      cases tsLookup m t <;> rfl
    · rw [if_neg ht, if_neg (fun hh : k = t => ht hh.symm)]

theorem tsMergeInto_keys_nodup (m l : List (Token × TokenStats))
    (hm : (m.map Prod.fst).Nodup) : ((tsMergeInto m l).map Prod.fst).Nodup := by
  induction l generalizing m with
  | nil => exact hm
  | cons kv rest ih =>
    exact ih (tsInsertOrAdd m kv.1 kv.2) (tsInsertOrAdd_keys_nodup m kv.1 kv.2 hm)

/-! ### Merge: exact-field commutativity and associativity (C1), invalidation (C2) -/

theorem optTS_none_left (y : Option TokenStats) : optTS none y = y := by
  cases y <;> rfl

/-- The (frequency, num_sequences) projection of a token-statistics entry. -/
def freqNS (o : Option TokenStats) : Option (Nat × Nat) :=
  o.map (fun ts => (ts.frequency, ts.num_sequences))

/-- Key-wise combination at the level of the (frequency, num_sequences)
projection. -/
def optPairAdd (x y : Option (Nat × Nat)) : Option (Nat × Nat) :=
  match y with
  | some v =>
    some (match x with
          | some w => (w.1 + v.1, w.2 + v.2)
          | none => v)
  | none => x

theorem freqNS_optTS (x y : Option TokenStats) :
    freqNS (optTS x y) = optPairAdd (freqNS x) (freqNS y) := by
  cases x <;> cases y <;> rfl

theorem optPairAdd_comm (x y : Option (Nat × Nat)) : optPairAdd x y = optPairAdd y x := by
  cases x <;> cases y <;> simp [optPairAdd, Nat.add_comm]

theorem optPairAdd_assoc (x y z : Option (Nat × Nat)) :
    optPairAdd (optPairAdd x y) z = optPairAdd x (optPairAdd y z) := by
  cases x <;> cases y <;> cases z <;> simp [optPairAdd, Nat.add_assoc]

theorem mergeAccumulators_pair (A B : PartialNLStats) :
    mergeAccumulators [A, B] = (PartialNLStats.iadd {} A).iadd B := rfl

theorem tsLookup_mergeAccumulators_pair (A B : PartialNLStats)
    (hA : (A.token_statistics.map Prod.fst).Nodup)
    (hB : (B.token_statistics.map Prod.fst).Nodup) (t : Token) :
    tsLookup (mergeAccumulators [A, B]).token_statistics t =
      optTS (tsLookup A.token_statistics t) (tsLookup B.token_statistics t) := by
  have hshape : (mergeAccumulators [A, B]).token_statistics =
      tsMergeInto (tsMergeInto [] A.token_statistics) B.token_statistics := rfl
  rw [hshape, tsLookup_tsMergeInto _ _ hB, tsLookup_tsMergeInto _ _ hA, tsLookup_nil,
    optTS_none_left]

theorem mergeAccumulators_pair_keys_nodup (A B : PartialNLStats) :
    ((mergeAccumulators [A, B]).token_statistics.map Prod.fst).Nodup := by
  have hshape : (mergeAccumulators [A, B]).token_statistics =
      tsMergeInto (tsMergeInto [] A.token_statistics) B.token_statistics := rfl
  rw [hshape]
  exact tsMergeInto_keys_nodup _ _ (tsMergeInto_keys_nodup _ _ (by simp))

/-- Agreement of two accumulators on the exact fields: the invalidate flag,
the four scalar sums, and every token's frequency and num_sequences. -/
def exact_fields_agree (X Y : PartialNLStats) : Prop :=
  X.invalidate = Y.invalidate ∧
  X.num_in_vocab_tokens = Y.num_in_vocab_tokens ∧
  X.total_num_tokens = Y.total_num_tokens ∧
  X.sum_in_vocab_token_lengths = Y.sum_in_vocab_token_lengths ∧
  X.num_examples = Y.num_examples ∧
  ∀ t : Token, freqNS (tsLookup X.token_statistics t) = freqNS (tsLookup Y.token_statistics t)

/-- C1: the accumulator merge is commutative and associative on all exact
fields: `merge(A,B)` and `merge(B,A)` agree on invalidate, the scalar sums and
every token's frequency/num_sequences, and `merge(merge(A,B),C)` agrees with
`merge(A,merge(B,C))` on the same fields. -/
theorem merge_exact_fields_comm_assoc (A B C : PartialNLStats)
    (hA : (A.token_statistics.map Prod.fst).Nodup)
    (hB : (B.token_statistics.map Prod.fst).Nodup)
    (hC : (C.token_statistics.map Prod.fst).Nodup) :
    exact_fields_agree (mergeAccumulators [A, B]) (mergeAccumulators [B, A]) ∧
    exact_fields_agree (mergeAccumulators [mergeAccumulators [A, B], C])
      (mergeAccumulators [A, mergeAccumulators [B, C]]) := by
  constructor
  · refine ⟨?_, ?_, ?_, ?_, ?_, ?_⟩
    · show (false || A.invalidate || B.invalidate) = (false || B.invalidate || A.invalidate)
      cases A.invalidate <;> cases B.invalidate <;> rfl
    · show 0 + A.num_in_vocab_tokens + B.num_in_vocab_tokens =
        0 + B.num_in_vocab_tokens + A.num_in_vocab_tokens
      omega
    · show 0 + A.total_num_tokens + B.total_num_tokens =
        0 + B.total_num_tokens + A.total_num_tokens
      omega
    · show 0 + A.sum_in_vocab_token_lengths + B.sum_in_vocab_token_lengths =
        0 + B.sum_in_vocab_token_lengths + A.sum_in_vocab_token_lengths
      omega
    · show 0 + A.num_examples + B.num_examples = 0 + B.num_examples + A.num_examples
      omega
    · intro t
      rw [tsLookup_mergeAccumulators_pair A B hA hB, tsLookup_mergeAccumulators_pair B A hB hA,
        freqNS_optTS, freqNS_optTS, optPairAdd_comm]
  · have hAB := mergeAccumulators_pair_keys_nodup A B
    have hBC := mergeAccumulators_pair_keys_nodup B C
    refine ⟨?_, ?_, ?_, ?_, ?_, ?_⟩
    · show ((false || (false || A.invalidate || B.invalidate)) || C.invalidate) =
        (false || A.invalidate || (false || B.invalidate || C.invalidate))
      cases A.invalidate <;> cases B.invalidate <;> cases C.invalidate <;> rfl
    · show 0 + (0 + A.num_in_vocab_tokens + B.num_in_vocab_tokens) + C.num_in_vocab_tokens =
        0 + A.num_in_vocab_tokens + (0 + B.num_in_vocab_tokens + C.num_in_vocab_tokens)
      omega
    · show 0 + (0 + A.total_num_tokens + B.total_num_tokens) + C.total_num_tokens =
        0 + A.total_num_tokens + (0 + B.total_num_tokens + C.total_num_tokens)
      omega
    · show 0 + (0 + A.sum_in_vocab_token_lengths + B.sum_in_vocab_token_lengths) +
          C.sum_in_vocab_token_lengths =
        0 + A.sum_in_vocab_token_lengths +
          (0 + B.sum_in_vocab_token_lengths + C.sum_in_vocab_token_lengths)
      omega
    · show 0 + (0 + A.num_examples + B.num_examples) + C.num_examples =
        0 + A.num_examples + (0 + B.num_examples + C.num_examples)
      omega
    · intro t
      rw [tsLookup_mergeAccumulators_pair _ C hAB hC,
        tsLookup_mergeAccumulators_pair A _ hA hBC,
        tsLookup_mergeAccumulators_pair A B hA hB,
        tsLookup_mergeAccumulators_pair B C hB hC,
        freqNS_optTS, freqNS_optTS, freqNS_optTS, freqNS_optTS, optPairAdd_assoc]

def accW1 : PartialNLStats :=
  { num_examples := 1, num_in_vocab_tokens := 2, total_num_tokens := 3,
    token_statistics := [(Token.str "a", { frequency := 2, num_sequences := 1 })] }

def accW2 : PartialNLStats :=
  { num_examples := 2, sum_in_vocab_token_lengths := 4,
    token_statistics := [(Token.str "a", { frequency := 1, num_sequences := 1 }),
                         (Token.int 3, { frequency := 4, num_sequences := 2 })] }

def accW3 : PartialNLStats :=
  { num_examples := 1, invalidate := true,
    token_statistics := [(Token.int 3, { frequency := 5, num_sequences := 1 })] }

theorem merge_exact_fields_comm_assoc_witness :
    (accW1.token_statistics.map Prod.fst).Nodup ∧
    (mergeAccumulators [accW1, accW2]).num_examples =
      (mergeAccumulators [accW2, accW1]).num_examples ∧
    freqNS (tsLookup (mergeAccumulators [mergeAccumulators [accW1, accW2],
        accW3]).token_statistics (Token.int 3)) =
      freqNS (tsLookup (mergeAccumulators [accW1, mergeAccumulators [accW2,
        accW3]]).token_statistics (Token.int 3)) := by
  have h := merge_exact_fields_comm_assoc accW1 accW2 accW3 (by decide) (by decide) (by decide)
  exact ⟨by decide, h.1.2.2.2.2.1, h.2.2.2.2.2.2 (Token.int 3)⟩

theorem mergeAccumulators_invalidate (l : List PartialNLStats) :
    (mergeAccumulators l).invalidate = l.any (·.invalidate) := by
  have key : ∀ (init : PartialNLStats),
      (l.foldl PartialNLStats.iadd init).invalidate = (init.invalidate || l.any (·.invalidate)) := by
    induction l with
    | nil => intro init; simp
    | cons a rest ih =>
      intro init
      simp only [List.foldl_cons, ih, List.any_cons]
      have hsh : (init.iadd a).invalidate = (init.invalidate || a.invalidate) := rfl
      rw [hsh, Bool.or_assoc]
  simpa using key {}

/-- C2: the invalidate flag merges by logical OR, so any invalidated
accumulator in a merge invalidates the result, and `extract_output` on an
invalidated accumulator returns an empty `FeatureNameStatistics` with no
custom_stats entries, regardless of the other accumulator contents. -/
theorem invalidation_suppresses_output :
    (∀ A B : PartialNLStats, (A.iadd B).invalidate = (A.invalidate || B.invalidate)) ∧
    (∀ (l : List PartialNLStats) (a : PartialNLStats), a ∈ l → a.invalidate = true →
      (mergeAccumulators l).invalidate = true) ∧
    (∀ (cfg : NLGenConfig) (acc : PartialNLStats), acc.invalidate = true →
      extract_output cfg acc = { custom_stats := [] }) := by
  refine ⟨fun A B => rfl, ?_, ?_⟩
  · intro l a ha hinv
    rw [mergeAccumulators_invalidate]
    exact List.any_eq_true.mpr ⟨a, ha, hinv⟩
  · intro cfg acc h
    simp [extract_output, h]

/-- A concrete extraction configuration used by witnesses: the opaque sketch
queries return nothing. -/
def cfgW : NLGenConfig :=
  { num_histogram_buckets := 4, num_quantiles_histogram_buckets := 10,
    num_rank_histogram_buckets := 10, get_quantiles_histogram := fun _ _ _ => [],
    mg_estimate := fun _ => [] }

theorem invalidation_suppresses_output_witness :
    accW3 ∈ [accW1, accW3] ∧ accW3.invalidate = true ∧
    (mergeAccumulators [accW1, accW3]).invalidate = true ∧
    extract_output cfgW accW3 = { custom_stats := [] } := by
  refine ⟨by decide, rfl, ?_, ?_⟩
  · exact invalidation_suppresses_output.2.1 [accW1, accW3] accW3 (by decide) rfl
  · exact invalidation_suppresses_output.2.2 cfgW accW3 rfl

/-! ### Row processing: C8 (empty rows), C5 (per-sequence bounds), C3 (token stats) -/

/-- C8: processing an empty row increments `num_examples` by exactly one and
changes nothing else, on both the integer-row and the string-row paths. -/
theorem empty_row_only_increments_num_examples (acc : PartialNLStats)
    (excluded_string_tokens : List String) (excluded_int_tokens : List Int)
    (oov_string_tokens : List String) (rvocab : Option (List (Int × String)))
    (vocab : Option (List (String × Int))) (int_tokens : List Int)
    (string_tokens : List String) (num_histogram_buckets : Nat) :
    compute_int_statistics [] acc excluded_string_tokens excluded_int_tokens
        oov_string_tokens rvocab int_tokens string_tokens num_histogram_buckets =
      { acc with num_examples := acc.num_examples + 1 } ∧
    compute_str_statistics [] acc excluded_string_tokens excluded_int_tokens
        oov_string_tokens vocab int_tokens string_tokens num_histogram_buckets =
      { acc with num_examples := acc.num_examples + 1 } :=
  ⟨rfl, rfl⟩

theorem norm_occurrence_indices_eq_nil (row : List Token) (t : Token) (h : t ∉ row) :
    norm_occurrence_indices row t = [] := by
  rw [norm_occurrence_indices]
  have hf : row.enum.filter (fun p => decide (p.2 = t)) = [] := by
    rw [List.filter_eq_nil_iff]
    rintro ⟨i, x⟩ hp
    simp only [decide_eq_true_eq]
    intro hpt
    have hx : x ∈ row := List.getElem?_mem ((List.mk_mem_enum_iff_getElem?).mp hp)
    exact h (hpt ▸ hx)
  rw [hf]
  rfl

/-- C5 counterexample: after processing the one-token string row `["b"]` with
tracked string token `"a"` from a fresh accumulator, the tracked token's
per-sequence min/max bounds are `some 0`, not absent, even though the token
was never observed. -/
theorem bounds_set_to_zero_counterexample :
    tsLookup (compute_str_statistics ["b"] {} [] [] [] none [] ["a"]
        10).token_statistics (Token.str "a") =
      some { frequency := 0, num_sequences := 0, per_sequence_min_frequency := some 0,
             per_sequence_max_frequency := some 0, positions := [] } := by decide

/-- C5, amended: processing a (non-empty) row in which a tracked token does
not occur does not leave the per-sequence bounds absent: it updates them with
an occurrence count of 0 — the min bound becomes `min(previous, 0)` and the
max bound `max(previous, 0)`, both `0` when previously absent — while the
`_TokenStats` merge rule does treat an absent bound as adopting the other
side's value rather than 0. -/
theorem bounds_updated_with_zero_when_token_absent :
    (∀ (acc : PartialNLStats) (row : List Token) (t : Token) (num_histogram_buckets : Nat),
      t ∉ row →
      tsLookup (update_accumulator_with_token_statistics acc row [t]
          num_histogram_buckets).token_statistics t =
        some { frequency := ((tsLookup acc.token_statistics t).getD {}).frequency
               num_sequences := ((tsLookup acc.token_statistics t).getD {}).num_sequences
               per_sequence_min_frequency :=
                 some (match ((tsLookup acc.token_statistics t).getD
                        {}).per_sequence_min_frequency with
                       | some a => min a 0
                       | none => 0)
               per_sequence_max_frequency :=
                 some (match ((tsLookup acc.token_statistics t).getD
                        {}).per_sequence_max_frequency with
                       | some a => max a 0
                       | none => 0)
               positions := ((tsLookup acc.token_statistics t).getD {}).positions }) ∧
    (∀ (fn : Nat → Nat → Nat) (o : Option Nat), optMergeWith fn none o = o) ∧
    (∀ (fn : Nat → Nat → Nat) (a : Nat), optMergeWith fn (some a) none = some a) := by
  refine ⟨?_, fun fn o => by cases o <;> rfl, fun fn a => rfl⟩
  intro acc row t B hrow
  have hshape : (update_accumulator_with_token_statistics acc row [t] B).token_statistics =
      tsModify acc.token_statistics t (token_stats_row_update B row t) := rfl
  rw [hshape, tsLookup_tsModify, if_pos rfl]
  rw [token_stats_row_update, norm_occurrence_indices_eq_nil row t hrow]
  rfl

theorem bounds_updated_with_zero_when_token_absent_witness :
    (Token.str "a") ∉ [Token.str "b"] ∧
    tsLookup (update_accumulator_with_token_statistics {} [Token.str "b"] [Token.str "a"]
        10).token_statistics (Token.str "a") =
      some { frequency := 0, num_sequences := 0, per_sequence_min_frequency := some 0,
             per_sequence_max_frequency := some 0, positions := [] } := by
  refine ⟨by decide, ?_⟩
  have h := bounds_updated_with_zero_when_token_absent.1 {} [Token.str "b"] (Token.str "a")
    10 (by decide)
  exact h

/-- The scenario accumulator of C3: the string rows `["a","b","a"]` and
`["a","c"]` folded into a fresh accumulator with vocabulary
`{a:1, b:2, c:3}`, no exclusions, no OOV tokens, and tracked string token
`"a"`. -/
def accScenario : PartialNLStats :=
  compute_str_statistics ["a", "c"]
    (compute_str_statistics ["a", "b", "a"] {} [] [] []
      (some [("a", 1), ("b", 2), ("c", 3)]) [] ["a"] 10)
    [] [] [] (some [("a", 1), ("b", 2), ("c", 3)]) [] ["a"] 10

/-- C3: when a tracked token's statistics have `num_sequences > 0`,
`_populate_token_statistics` emits its frequency, its fraction of sequences
`num_sequences / num_examples`, its per-sequence min/max bounds, and its
per-sequence average `frequency / num_sequences` (together with its position
histogram); with `num_sequences = 0` it emits nothing.  In the concrete
scenario (rows `["a","b","a"]`, `["a","c"]`, tracked token `"a"`) the token
ends with frequency 3, num_sequences 2, per-sequence min 1, per-sequence
max 2, and fraction of sequences 1. -/
theorem tracked_token_statistics_extraction :
    (∀ (name : Token) (num_histogram_buckets num_examples : Nat) (stats : TokenStats)
      (mn mx : Nat), stats.num_sequences ≠ 0 →
      stats.per_sequence_min_frequency = some mn →
      stats.per_sequence_max_frequency = some mx →
      (populate_token_statistics name num_histogram_buckets num_examples stats).2 =
        [{ name := CustomStatName.nl_token_frequency name
           value := CustomStatValue.num (stats.frequency : Rat) },
         { name := CustomStatName.nl_fraction_of_examples name
           value := CustomStatValue.num
             ((stats.num_sequences : Rat) / (num_examples : Rat)) },
         { name := CustomStatName.nl_per_sequence_min_frequency name
           value := CustomStatValue.num (mn : Rat) },
         { name := CustomStatName.nl_per_sequence_max_frequency name
           value := CustomStatValue.num (mx : Rat) },
         { name := CustomStatName.nl_per_sequence_avg_frequency name
           value := CustomStatValue.num
             ((stats.frequency : Rat) / (stats.num_sequences : Rat)) },
         { name := CustomStatName.nl_token_positions name
           value := CustomStatValue.histogram
             (populate_token_position_histogram stats num_histogram_buckets) }]) ∧
    (∀ (name : Token) (num_histogram_buckets num_examples : Nat) (stats : TokenStats),
      stats.num_sequences = 0 →
      (populate_token_statistics name num_histogram_buckets num_examples stats).2 = []) ∧
    (∀ (cfg : NLGenConfig) (acc : PartialNLStats) (t : Token) (stats : TokenStats)
      (c : CustomStat), acc.invalidate = false → (t, stats) ∈ acc.token_statistics →
      c ∈ (populate_token_statistics t cfg.num_histogram_buckets acc.num_examples stats).2 →
      c ∈ (extract_output cfg acc).custom_stats) ∧
    (tsLookup accScenario.token_statistics (Token.str "a") =
      some { frequency := 3, num_sequences := 2, per_sequence_min_frequency := some 1,
             per_sequence_max_frequency := some 2, positions := [(0, 2), (6, 1)] } ∧
     accScenario.num_examples = 2 ∧
     (populate_token_statistics (Token.str "a") 10 accScenario.num_examples
       ((tsLookup accScenario.token_statistics (Token.str "a")).getD
         {})).1.fraction_of_sequences = 1) := by
  refine ⟨?_, ?_, ?_, by decide⟩
  · intro name B ne stats mn mx h hmn hmx
    simp [populate_token_statistics, h, hmn, hmx, ratDivNat_eq_div]
  · intro name B ne stats h
    simp [populate_token_statistics, h]
  · intro cfg acc t stats c hinv ht hc
    have hne : acc.token_statistics ≠ [] := by
      intro h
      rw [h] at ht
      cases ht
    have hmem : c ∈ (if acc.token_statistics ≠ [] then
        (acc.token_statistics.map (fun kv =>
          (populate_token_statistics kv.1 cfg.num_histogram_buckets
            acc.num_examples kv.2).2)).flatten
      else []) := by
      rw [if_pos hne]
      exact List.mem_flatten.mpr ⟨_, List.mem_map.mpr ⟨(t, stats), ht, rfl⟩, hc⟩
    simp only [extract_output, hinv, Bool.false_eq_true, if_false, List.mem_append,
      FeatureNameStatistics.mk.injEq]
    tauto

theorem tracked_token_statistics_extraction_witness :
    (2 : Nat) ≠ 0 ∧
    (populate_token_statistics (Token.str "a") 10 2
        { frequency := 3, num_sequences := 2, per_sequence_min_frequency := some 1,
          per_sequence_max_frequency := some 2, positions := [(0, 2), (6, 1)] }).2 =
      [{ name := CustomStatName.nl_token_frequency (Token.str "a")
         value := CustomStatValue.num (3 : Rat) },
       { name := CustomStatName.nl_fraction_of_examples (Token.str "a")
         value := CustomStatValue.num ((2 : Rat) / (2 : Rat)) },
       { name := CustomStatName.nl_per_sequence_min_frequency (Token.str "a")
         value := CustomStatValue.num (1 : Rat) },
       { name := CustomStatName.nl_per_sequence_max_frequency (Token.str "a")
         value := CustomStatValue.num (2 : Rat) },
       { name := CustomStatName.nl_per_sequence_avg_frequency (Token.str "a")
         value := CustomStatValue.num ((3 : Rat) / (2 : Rat)) },
       { name := CustomStatName.nl_token_positions (Token.str "a")
         value := CustomStatValue.histogram (populate_token_position_histogram
           { frequency := 3, num_sequences := 2, per_sequence_min_frequency := some 1,
             per_sequence_max_frequency := some 2, positions := [(0, 2), (6, 1)] } 10) }] := by
  refine ⟨by decide, ?_⟩
  have h := tracked_token_statistics_extraction.1 (Token.str "a") 10 2
    { frequency := 3, num_sequences := 2, per_sequence_min_frequency := some 1,
      per_sequence_max_frequency := some 2, positions := [(0, 2), (6, 1)] } 1 2
    (by decide) rfl rfl
  exact_mod_cast h

/-! ### Position bucketing and histogram (C7) -/

theorem position_bucket_eq_floor (i L B : Nat) :
    pyInt (ratMulNat (ratDivNat i L) B) = ⌊((i : Rat) / (L : Rat)) * (B : Rat)⌋ := by
  rw [ratMulNat_eq_mul, ratDivNat_eq_div, pyInt_eq_floor]
  positivity

/-- C7: each occurrence of a tracked token at index `i` of a row of length
`L` is bucketed into `⌊(i / L) * num_histogram_buckets⌋`; at normalized
position `0.5` with 4 buckets this is bucket 2; and the extracted position
histogram is sorted ascending by bucket index, bucket `k` spanning
`[k / B, (k+1) / B)`. -/
theorem position_bucketing_and_histogram :
    (∀ (num_histogram_buckets : Nat) (row : List Token) (t : Token) (s : TokenStats),
      (token_stats_row_update num_histogram_buckets row t s).positions =
        ((row.enum.filter (fun p => decide (p.2 = t))).map Prod.fst).foldl
          (fun c (i : Nat) =>
            counterIncr c ⌊((i : Rat) / (row.length : Rat)) * (num_histogram_buckets : Rat)⌋ 1)
          s.positions) ∧
    pyInt (ratMulNat (ratDivNat 1 2) 4) = 2 ∧
    (⌊((1 : Rat) / (2 : Rat)) * (4 : Rat)⌋ = 2 ∧
     (token_stats_row_update 4 [Token.str "b", Token.str "a"] (Token.str "a") {}).positions =
       [(2, 1)]) ∧
    (∀ (stats : TokenStats) (num_histogram_buckets : Nat),
      (populate_token_position_histogram stats num_histogram_buckets).Pairwise
        (fun a b => a.low_value ≤ b.low_value) ∧
      ∀ hb ∈ populate_token_position_histogram stats num_histogram_buckets,
        ∃ k v, (k, v) ∈ stats.positions ∧
          hb = { low_value := (k : Rat) / (num_histogram_buckets : Rat)
                 high_value := ((k + 1 : Int) : Rat) / (num_histogram_buckets : Rat)
                 sample_count := (v : Rat) }) := by
  refine ⟨?_, by decide, ⟨by norm_num, by decide⟩, ?_⟩
  · intro B row t s
    have hup : (token_stats_row_update B row t s).positions =
        (norm_occurrence_indices row t).foldl
          (fun c q => counterIncr c (pyInt (ratMulNat q B)) 1) s.positions := rfl
    rw [hup, norm_occurrence_indices, List.foldl_map, List.foldl_map]
    simp only [position_bucket_eq_floor]
  · intro stats B
    constructor
    · have hsorted : (List.insertionSort (fun a b : Int × Nat => a.1 ≤ b.1)
          stats.positions).Pairwise (fun a b => a.1 ≤ b.1) := by
        haveI : IsTotal (Int × Nat) (fun a b => a.1 ≤ b.1) := ⟨fun a b => le_total a.1 b.1⟩
        haveI : IsTrans (Int × Nat) (fun a b => a.1 ≤ b.1) :=
          ⟨fun a b c hab hbc => le_trans hab hbc⟩
        exact List.sorted_insertionSort _ stats.positions
      rw [populate_token_position_histogram]
      rw [List.pairwise_map]
      refine List.Pairwise.imp ?_ hsorted
      intro a b hab
      show ratDivInt a.1 B ≤ ratDivInt b.1 B
      rw [ratDivInt_eq_div, ratDivInt_eq_div, div_eq_mul_inv, div_eq_mul_inv]
      exact mul_le_mul_of_nonneg_right (by exact_mod_cast hab)
        (inv_nonneg.mpr (by positivity))
    · intro hb hhb
      rw [populate_token_position_histogram] at hhb
      obtain ⟨⟨k, v⟩, hkv, hkveq⟩ := List.mem_map.mp hhb
      refine ⟨k, v, ?_, ?_⟩
      · exact (List.mem_insertionSort _).mp hkv
      · rw [← hkveq]
        simp [ratDivInt_eq_div]

/-- Concrete per-token statistics and histogram bucket used by the C7
witness. -/
def tsW : TokenStats :=
  { frequency := 1, num_sequences := 1, per_sequence_min_frequency := some 1,
    per_sequence_max_frequency := some 1, positions := [(2, 1)] }

def hbW : HistogramBucket :=
  { low_value := ratDivInt 2 4, high_value := ratDivInt 3 4, sample_count := 1 }

theorem position_bucketing_and_histogram_witness :
    hbW ∈ populate_token_position_histogram tsW 4 ∧
    ∃ k v, (k, v) ∈ tsW.positions ∧
      hbW = { low_value := (k : Rat) / ((4 : Nat) : Rat)
              high_value := ((k + 1 : Int) : Rat) / ((4 : Nat) : Rat)
              sample_count := (v : Rat) } :=
  ⟨by decide, (position_bucketing_and_histogram.2.2.2 tsW 4).2 hbW (by decide)⟩

/-! ### Guarded feature-coverage and average token length emission (C9) -/

theorem mem_of_mem_ite_nil {α : Type} {p : Prop} [Decidable p] {l : List α} {c : α}
    (h : c ∈ (if p then l else [])) : c ∈ l ∧ p := by
  split_ifs at h with hp
  · exact ⟨h, hp⟩
  · cases h

theorem populate_token_statistics_names (name : Token) (num_histogram_buckets : Nat)
    (num_examples : Nat) (stats : TokenStats) (c : CustomStat)
    (hc : c ∈ (populate_token_statistics name num_histogram_buckets num_examples stats).2) :
    c.name ≠ CustomStatName.nl_feature_coverage ∧
    c.name ≠ CustomStatName.nl_avg_token_length := by
  rw [populate_token_statistics] at hc
  split_ifs at hc with h
  · simp only [List.mem_cons, List.not_mem_nil, or_false] at hc
    rcases hc with rfl | rfl | rfl | rfl | rfl | rfl <;>
      exact ⟨fun hh => (nomatch hh), fun hh => (nomatch hh)⟩
  · cases hc

/-- Name analysis of `extract_output`: every emitted custom stat is either
the coverage entry (guarded by `total_num_tokens` being nonzero), the average
token length entry (guarded by `num_in_vocab_tokens` being nonzero), or an
entry whose name is neither of those two. -/
theorem extract_output_mem_analysis (cfg : NLGenConfig) (acc : PartialNLStats)
    (hinv : acc.invalidate = false) (c : CustomStat)
    (hc : c ∈ (extract_output cfg acc).custom_stats) :
    (c = { name := CustomStatName.nl_feature_coverage
           value := CustomStatValue.num (ratDivNat acc.num_in_vocab_tokens
             acc.total_num_tokens) } ∧ acc.total_num_tokens ≠ 0) ∨
    (c = { name := CustomStatName.nl_avg_token_length
           value := CustomStatValue.num (ratDivNat acc.sum_in_vocab_token_lengths
             acc.num_in_vocab_tokens) } ∧ acc.num_in_vocab_tokens ≠ 0) ∨
    (c.name ≠ CustomStatName.nl_feature_coverage ∧
     c.name ≠ CustomStatName.nl_avg_token_length) := by
  simp only [extract_output, hinv, Bool.false_eq_true, if_false, List.mem_append,
    List.mem_singleton] at hc
  rcases hc with ((((((h1 | h2) | h3) | h4) | h5) | h6) | h7)
  · obtain ⟨hm, hp⟩ := mem_of_mem_ite_nil h1
    exact Or.inl ⟨List.mem_singleton.mp hm, hp⟩
  · obtain ⟨hm, hp⟩ := mem_of_mem_ite_nil h2
    exact Or.inr (Or.inl ⟨List.mem_singleton.mp hm, hp⟩)
  · refine Or.inr (Or.inr ?_)
    split_ifs at h3 with hp1 hp2
    · rcases List.mem_singleton.mp h3 with rfl
      exact ⟨fun hh => (nomatch hh), fun hh => (nomatch hh)⟩
    · cases h3
    · cases h3
  · refine Or.inr (Or.inr ?_)
    split_ifs at h4 with hp1 hp2
    · rcases List.mem_singleton.mp h4 with rfl
      exact ⟨fun hh => (nomatch hh), fun hh => (nomatch hh)⟩
    · cases h4
    · cases h4
  · refine Or.inr (Or.inr ?_)
    obtain ⟨hm, hp⟩ := mem_of_mem_ite_nil h5
    obtain ⟨l, hl, hcl⟩ := List.mem_flatten.mp hm
    obtain ⟨kv, hkv, rfl⟩ := List.mem_map.mp hl
    exact populate_token_statistics_names kv.1 cfg.num_histogram_buckets
      acc.num_examples kv.2 c hcl
  · refine Or.inr (Or.inr ?_)
    obtain ⟨hm, hp⟩ := mem_of_mem_ite_nil h6
    rcases List.mem_singleton.mp hm with rfl
    exact ⟨fun hh => (nomatch hh), fun hh => (nomatch hh)⟩
  · rcases h7 with rfl
    exact Or.inr (Or.inr ⟨fun hh => (nomatch hh), fun hh => (nomatch hh)⟩)

theorem extract_output_mem_coverage (cfg : NLGenConfig) (acc : PartialNLStats)
    (hinv : acc.invalidate = false) (hp : acc.total_num_tokens ≠ 0) :
    ({ name := CustomStatName.nl_feature_coverage
       value := CustomStatValue.num (ratDivNat acc.num_in_vocab_tokens
         acc.total_num_tokens) } : CustomStat) ∈ (extract_output cfg acc).custom_stats := by
  simp only [extract_output, hinv, Bool.false_eq_true, if_false, List.mem_append]
  exact Or.inl (Or.inl (Or.inl (Or.inl (Or.inl (Or.inl
    (by rw [if_pos hp]; exact List.mem_singleton.mpr rfl))))))

theorem extract_output_mem_avg_token_length (cfg : NLGenConfig) (acc : PartialNLStats)
    (hinv : acc.invalidate = false) (hp : acc.num_in_vocab_tokens ≠ 0) :
    ({ name := CustomStatName.nl_avg_token_length
       value := CustomStatValue.num (ratDivNat acc.sum_in_vocab_token_lengths
         acc.num_in_vocab_tokens) } : CustomStat) ∈ (extract_output cfg acc).custom_stats := by
  simp only [extract_output, hinv, Bool.false_eq_true, if_false, List.mem_append]
  exact Or.inl (Or.inl (Or.inl (Or.inl (Or.inl (Or.inr
    (by rw [if_pos hp]; exact List.mem_singleton.mpr rfl))))))

/-- C9: `extract_output` emits the feature-coverage statistic, with value
`num_in_vocab_tokens / total_num_tokens`, iff `total_num_tokens > 0`, and the
average in-vocabulary token length, with value
`sum_in_vocab_token_lengths / num_in_vocab_tokens`, iff
`num_in_vocab_tokens > 0`; so both divisions only ever run with a nonzero
denominator. -/
theorem coverage_and_avg_token_length_guarded (cfg : NLGenConfig) (acc : PartialNLStats)
    (hinv : acc.invalidate = false) :
    ((∃ v, ({ name := CustomStatName.nl_feature_coverage, value := v } : CustomStat) ∈
        (extract_output cfg acc).custom_stats) ↔ 0 < acc.total_num_tokens) ∧
    (∀ v, ({ name := CustomStatName.nl_feature_coverage, value := v } : CustomStat) ∈
        (extract_output cfg acc).custom_stats →
      v = CustomStatValue.num
        ((acc.num_in_vocab_tokens : Rat) / (acc.total_num_tokens : Rat))) ∧
    ((∃ v, ({ name := CustomStatName.nl_avg_token_length, value := v } : CustomStat) ∈
        (extract_output cfg acc).custom_stats) ↔ 0 < acc.num_in_vocab_tokens) ∧
    (∀ v, ({ name := CustomStatName.nl_avg_token_length, value := v } : CustomStat) ∈
        (extract_output cfg acc).custom_stats →
      v = CustomStatValue.num
        ((acc.sum_in_vocab_token_lengths : Rat) / (acc.num_in_vocab_tokens : Rat))) := by
  refine ⟨⟨?_, ?_⟩, ?_, ⟨?_, ?_⟩, ?_⟩
  · rintro ⟨v, hv⟩
    rcases extract_output_mem_analysis cfg acc hinv _ hv with ⟨heq, hp⟩ | ⟨heq, hp⟩ | ⟨hn, _⟩
    · exact Nat.pos_of_ne_zero hp
    · exact absurd (congrArg CustomStat.name heq) (fun hh => nomatch hh)
    · exact absurd rfl hn
  · intro hp
    exact ⟨_, extract_output_mem_coverage cfg acc hinv (Nat.pos_iff_ne_zero.mp hp)⟩
  · intro v hv
    rcases extract_output_mem_analysis cfg acc hinv _ hv with ⟨heq, hp⟩ | ⟨heq, hp⟩ | ⟨hn, _⟩
    · have := congrArg CustomStat.value heq
      simpa [ratDivNat_eq_div] using this
    · exact absurd (congrArg CustomStat.name heq) (fun hh => nomatch hh)
    · exact absurd rfl hn
  · rintro ⟨v, hv⟩
    rcases extract_output_mem_analysis cfg acc hinv _ hv with ⟨heq, hp⟩ | ⟨heq, hp⟩ | ⟨_, hn⟩
    · exact absurd (congrArg CustomStat.name heq) (fun hh => nomatch hh)
    · exact Nat.pos_of_ne_zero hp
    · exact absurd rfl hn
  · intro hp
    exact ⟨_, extract_output_mem_avg_token_length cfg acc hinv (Nat.pos_iff_ne_zero.mp hp)⟩
  · intro v hv
    rcases extract_output_mem_analysis cfg acc hinv _ hv with ⟨heq, hp⟩ | ⟨heq, hp⟩ | ⟨_, hn⟩
    · exact absurd (congrArg CustomStat.name heq) (fun hh => nomatch hh)
    · have := congrArg CustomStat.value heq
      simpa [ratDivNat_eq_div] using this
    · exact absurd rfl hn

theorem coverage_and_avg_token_length_guarded_witness :
    accW1.invalidate = false ∧
    ((∃ v, ({ name := CustomStatName.nl_feature_coverage, value := v } : CustomStat) ∈
        (extract_output cfgW accW1).custom_stats) ↔ 0 < accW1.total_num_tokens) := by
  refine ⟨rfl, ?_⟩
  exact (coverage_and_avg_token_length_guarded cfgW accW1 rfl).1

/-! ### Reachability invariants (C4, C10) -/

/-- Lookup characterization of the tracked-token fold performed by
`_update_accumulator_with_token_statistics` over a duplicate-free token set. -/
theorem tsLookup_row_fold (num_histogram_buckets : Nat) (row : List Token)
    (tokens : List Token) (h : tokens.Nodup) (m : List (Token × TokenStats)) (u : Token) :
    tsLookup (tokens.foldl
        (fun m t => tsModify m t (token_stats_row_update num_histogram_buckets row t)) m) u =
      if u ∈ tokens then
        some (token_stats_row_update num_histogram_buckets row u ((tsLookup m u).getD {}))
      else tsLookup m u := by
  induction tokens generalizing m with
  | nil => simp
  | cons t rest ih =>
    simp only [List.nodup_cons] at h
    rw [List.foldl_cons, ih h.2 (tsModify m t _)]
    by_cases hu : u = t
    · subst hu
      rw [if_neg h.1, if_pos (List.mem_cons_self u rest), tsLookup_tsModify, if_pos rfl]
    · by_cases hur : u ∈ rest
      · rw [if_pos hur, if_pos (List.mem_cons_of_mem t hur), tsLookup_tsModify, if_neg hu]
      · rw [if_neg hur, if_neg (by
          intro hmem
          rcases List.mem_cons.mp hmem with h1 | h2
          · exact hu h1
          · exact hur h2), tsLookup_tsModify, if_neg hu]

theorem row_fold_keys_nodup (num_histogram_buckets : Nat) (row : List Token)
    (tokens : List Token) (m : List (Token × TokenStats))
    (hm : (m.map Prod.fst).Nodup) :
    (((tokens.foldl
        (fun m t => tsModify m t (token_stats_row_update num_histogram_buckets row t))
        m)).map Prod.fst).Nodup := by
  induction tokens generalizing m with
  | nil => exact hm
  | cons t rest ih => exact ih _ (tsModify_keys_nodup m t _ hm)

/-- The per-row, per-token update adds at most one to `num_sequences`, adds
the occurrence count to `frequency`, and preserves
`num_sequences ≤ frequency`. -/
theorem token_stats_row_update_bounds (num_histogram_buckets : Nat) (row : List Token)
    (t : Token) (ts : TokenStats) :
    (token_stats_row_update num_histogram_buckets row t ts).num_sequences ≤
      ts.num_sequences + 1 ∧
    (ts.num_sequences ≤ ts.frequency →
      (token_stats_row_update num_histogram_buckets row t ts).num_sequences ≤
        (token_stats_row_update num_histogram_buckets row t ts).frequency) := by
  have hns : (token_stats_row_update num_histogram_buckets row t ts).num_sequences =
      ts.num_sequences +
        (if (norm_occurrence_indices row t).length ≠ 0 then 1 else 0) := rfl
  have hf : (token_stats_row_update num_histogram_buckets row t ts).frequency =
      ts.frequency + (norm_occurrence_indices row t).length := rfl
  rw [hns, hf]
  by_cases hocc : (norm_occurrence_indices row t).length = 0 <;> simp [hocc] <;> omega

/-- The invariant maintained on the token-statistics map: duplicate-free
keys, and every entry has `num_sequences ≤ frequency` and
`num_sequences ≤ ne`. -/
def MapInv (m : List (Token × TokenStats)) (ne : Nat) : Prop :=
  (m.map Prod.fst).Nodup ∧
  ∀ t ts, tsLookup m t = some ts →
    ts.num_sequences ≤ ts.frequency ∧ ts.num_sequences ≤ ne

theorem MapInv_mono (m : List (Token × TokenStats)) (ne ne' : Nat) (h : ne ≤ ne')
    (hm : MapInv m ne) : MapInv m ne' :=
  ⟨hm.1, fun t ts hl => ⟨(hm.2 t ts hl).1, le_trans (hm.2 t ts hl).2 h⟩⟩

theorem MapInv_getD (m : List (Token × TokenStats)) (ne : Nat) (hm : MapInv m ne)
    (u : Token) :
    ((tsLookup m u).getD {}).num_sequences ≤ ((tsLookup m u).getD {}).frequency ∧
    ((tsLookup m u).getD {}).num_sequences ≤ ne := by
  cases h : tsLookup m u with
  | none => exact ⟨Nat.le_refl 0, Nat.zero_le ne⟩
  | some ts => exact hm.2 u ts h

/-- One row updates the map through (up to) two tracked-token folds over
disjoint duplicate-free token sets; every entry gains at most one
`num_sequences` increment, so `MapInv` carries over to `ne + 1`. -/
theorem two_fold_MapInv (B1 B2 : Nat) (row1 row2 : List Token) (l1 l2 : List Token)
    (h1 : l1.Nodup) (h2 : l2.Nodup) (hd : ∀ t, t ∈ l1 → t ∉ l2)
    (m : List (Token × TokenStats)) (ne : Nat) (hm : MapInv m ne) :
    MapInv (l2.foldl (fun m t => tsModify m t (token_stats_row_update B2 row2 t))
      (l1.foldl (fun m t => tsModify m t (token_stats_row_update B1 row1 t)) m)) (ne + 1) := by
  constructor
  · exact row_fold_keys_nodup B2 row2 l2 _ (row_fold_keys_nodup B1 row1 l1 m hm.1)
  · intro u ts hl
    rw [tsLookup_row_fold B2 row2 l2 h2, tsLookup_row_fold B1 row1 l1 h1] at hl
    by_cases hu2 : u ∈ l2
    · rw [if_pos hu2] at hl
      have hu1 : u ∉ l1 := fun hu1 => hd u hu1 hu2
      rw [if_neg hu1] at hl
      obtain ⟨hprev1, hprev2⟩ := MapInv_getD m ne hm u
      obtain ⟨hb1, hb2⟩ := token_stats_row_update_bounds B2 row2 u ((tsLookup m u).getD {})
      cases hl
      exact ⟨hb2 hprev1, le_trans hb1 (by omega)⟩
    · rw [if_neg hu2] at hl
      by_cases hu1 : u ∈ l1
      · rw [if_pos hu1] at hl
        obtain ⟨hprev1, hprev2⟩ := MapInv_getD m ne hm u
        obtain ⟨hb1, hb2⟩ := token_stats_row_update_bounds B1 row1 u ((tsLookup m u).getD {})
        cases hl
        exact ⟨hb2 hprev1, le_trans hb1 (by omega)⟩
      · rw [if_neg hu1] at hl
        obtain ⟨hb1, hb2⟩ := hm.2 u ts hl
        exact ⟨hb1, by omega⟩

/-- The accumulator-level invariant for C4 and C10. -/
def AccInv (acc : PartialNLStats) : Prop :=
  MapInv acc.token_statistics acc.num_examples

theorem compute_int_statistics_AccInv (row : List Int) (acc : PartialNLStats)
    (excluded_string_tokens : List String) (excluded_int_tokens : List Int)
    (oov_string_tokens : List String) (rvocab : Option (List (Int × String)))
    (int_tokens : List Int) (string_tokens : List String) (num_histogram_buckets : Nat)
    (hi : int_tokens.Nodup) (hs : string_tokens.Nodup) (hacc : AccInv acc) :
    AccInv (compute_int_statistics row acc excluded_string_tokens excluded_int_tokens
      oov_string_tokens rvocab int_tokens string_tokens num_histogram_buckets) := by
  have hne : (compute_int_statistics row acc excluded_string_tokens excluded_int_tokens
      oov_string_tokens rvocab int_tokens string_tokens
      num_histogram_buckets).num_examples = acc.num_examples + 1 := by
    rw [compute_int_statistics]
    split_ifs <;> rfl
  have hts : (compute_int_statistics row acc excluded_string_tokens excluded_int_tokens
      oov_string_tokens rvocab int_tokens string_tokens
      num_histogram_buckets).token_statistics =
      (if row = [] then acc.token_statistics
       else (string_tokens.map Token.str).foldl
         (fun m t => tsModify m t
           (token_stats_row_update num_histogram_buckets (resolve_int_row rvocab row) t))
         ((int_tokens.map Token.int).foldl
           (fun m t => tsModify m t
             (token_stats_row_update num_histogram_buckets (row.map Token.int) t))
           acc.token_statistics)) := by
    rw [compute_int_statistics]
    split_ifs <;> rfl
  rw [AccInv, hne, hts]
  split_ifs with hrow
  · exact MapInv_mono _ _ _ (Nat.le_succ _) hacc
  · exact two_fold_MapInv num_histogram_buckets num_histogram_buckets
      (row.map Token.int) (resolve_int_row rvocab row)
      (int_tokens.map Token.int) (string_tokens.map Token.str)
      (hi.map (fun a b h => by cases h; rfl)) (hs.map (fun a b h => by cases h; rfl))
      (by
        intro t ht1 ht2
        obtain ⟨a, ha, rfl⟩ := List.mem_map.mp ht1
        obtain ⟨b, hb, hbe⟩ := List.mem_map.mp ht2
        cases hbe)
      acc.token_statistics acc.num_examples hacc

theorem compute_str_statistics_AccInv (row : List String) (acc : PartialNLStats)
    (excluded_string_tokens : List String) (excluded_int_tokens : List Int)
    (oov_string_tokens : List String) (vocab : Option (List (String × Int)))
    (int_tokens : List Int) (string_tokens : List String) (num_histogram_buckets : Nat)
    (hi : int_tokens.Nodup) (hs : string_tokens.Nodup) (hacc : AccInv acc) :
    AccInv (compute_str_statistics row acc excluded_string_tokens excluded_int_tokens
      oov_string_tokens vocab int_tokens string_tokens num_histogram_buckets) := by
  have hne : (compute_str_statistics row acc excluded_string_tokens excluded_int_tokens
      oov_string_tokens vocab int_tokens string_tokens
      num_histogram_buckets).num_examples = acc.num_examples + 1 := by
    rw [compute_str_statistics]
    split_ifs <;> rfl
  have hts : (compute_str_statistics row acc excluded_string_tokens excluded_int_tokens
      oov_string_tokens vocab int_tokens string_tokens
      num_histogram_buckets).token_statistics =
      (if row = [] then acc.token_statistics
       else if dictTruthy vocab then
         (int_tokens.map Token.int).foldl
           (fun m t => tsModify m t
             (token_stats_row_update num_histogram_buckets (resolve_str_row vocab row) t))
           ((string_tokens.map Token.str).foldl
             (fun m t => tsModify m t
               (token_stats_row_update num_histogram_buckets (row.map Token.str) t))
             acc.token_statistics)
       else (string_tokens.map Token.str).foldl
         (fun m t => tsModify m t
           (token_stats_row_update num_histogram_buckets (row.map Token.str) t))
         acc.token_statistics) := by
    rw [compute_str_statistics]
    split_ifs <;> rfl
  rw [AccInv, hne, hts]
  split_ifs with hrow hvocab
  · exact MapInv_mono _ _ _ (Nat.le_succ _) hacc
  · exact two_fold_MapInv num_histogram_buckets num_histogram_buckets
      (row.map Token.str) (resolve_str_row vocab row)
      (string_tokens.map Token.str) (int_tokens.map Token.int)
      (hs.map (fun a b h => by cases h; rfl)) (hi.map (fun a b h => by cases h; rfl))
      (by
        intro t ht1 ht2
        obtain ⟨a, ha, rfl⟩ := List.mem_map.mp ht1
        obtain ⟨b, hb, hbe⟩ := List.mem_map.mp ht2
        cases hbe)
      acc.token_statistics acc.num_examples hacc
  · have h := two_fold_MapInv num_histogram_buckets num_histogram_buckets
      (row.map Token.str) (row.map Token.str)
      (string_tokens.map Token.str) ([] : List Token)
      (hs.map (fun a b h => by cases h; rfl)) List.nodup_nil
      (by intro t ht1 ht2; cases ht2)
      acc.token_statistics acc.num_examples hacc
    exact h

theorem TokenStats_iadd_inv (a b : TokenStats) (na nb : Nat)
    (ha : a.num_sequences ≤ a.frequency ∧ a.num_sequences ≤ na)
    (hb : b.num_sequences ≤ b.frequency ∧ b.num_sequences ≤ nb) :
    (a.iadd b).num_sequences ≤ (a.iadd b).frequency ∧
    (a.iadd b).num_sequences ≤ na + nb := by
  have h1 : (a.iadd b).num_sequences = a.num_sequences + b.num_sequences := rfl
  have h2 : (a.iadd b).frequency = a.frequency + b.frequency := rfl
  rw [h1, h2]
  omega

/-- Every accumulator reachable through the generator lifecycle satisfies the
token-statistics invariant. -/
theorem reachable_AccInv (acc : PartialNLStats) (h : Reachable acc) : AccInv acc := by
  induction h with
  | create => exact ⟨List.nodup_nil, fun t ts hl => by cases hl⟩
  | int_row acc row est eit oov rvocab its sts B hits hsts h ih =>
    exact compute_int_statistics_AccInv row acc est eit oov rvocab its sts B hits hsts ih
  | str_row acc row est eit oov vocab its sts B hits hsts h ih =>
    exact compute_str_statistics_AccInv row acc est eit oov vocab its sts B hits hsts ih
  | invalid acc h ih => exact ih
  | merge a b ha hb iha ihb =>
    constructor
    · exact tsMergeInto_keys_nodup a.token_statistics b.token_statistics iha.1
    · intro t ts hl
      have hshape : (a.iadd b).token_statistics =
          tsMergeInto a.token_statistics b.token_statistics := rfl
      rw [hshape, tsLookup_tsMergeInto a.token_statistics b.token_statistics ihb.1 t] at hl
      have hne : (a.iadd b).num_examples = a.num_examples + b.num_examples := rfl
      rw [hne]
      cases hb1 : tsLookup b.token_statistics t with
      | none =>
        rw [hb1] at hl
        have hl2 : tsLookup a.token_statistics t = some ts := hl
        obtain ⟨x1, x2⟩ := iha.2 t ts hl2
        exact ⟨x1, by omega⟩
      | some tb =>
        rw [hb1] at hl
        cases ha1 : tsLookup a.token_statistics t with
        | none =>
          rw [ha1] at hl
          have hl2 : some tb = some ts := hl
          cases hl2
          obtain ⟨x1, x2⟩ := ihb.2 t ts hb1
          exact ⟨x1, by omega⟩
        | some ta =>
          rw [ha1] at hl
          have hl2 : some (TokenStats.iadd ta tb) = some ts := hl
          cases hl2
          exact TokenStats_iadd_inv ta tb a.num_examples b.num_examples
            (iha.2 t ta ha1) (ihb.2 t tb hb1)

/-- C4: on every reachable accumulator, each token-statistics entry with
`num_sequences > 0` has `frequency ≥ num_sequences`; the invariant is
preserved by the per-row update and by the `_TokenStats` merge rule. -/
theorem frequency_ge_num_sequences :
    (∀ (acc : PartialNLStats), Reachable acc → ∀ (t : Token) (ts : TokenStats),
      tsLookup acc.token_statistics t = some ts → 0 < ts.num_sequences →
      ts.num_sequences ≤ ts.frequency) ∧
    (∀ (num_histogram_buckets : Nat) (row : List Token) (t : Token) (ts : TokenStats),
      ts.num_sequences ≤ ts.frequency →
      (token_stats_row_update num_histogram_buckets row t ts).num_sequences ≤
        (token_stats_row_update num_histogram_buckets row t ts).frequency) ∧
    (∀ a b : TokenStats, a.num_sequences ≤ a.frequency → b.num_sequences ≤ b.frequency →
      (a.iadd b).num_sequences ≤ (a.iadd b).frequency) := by
  refine ⟨?_, ?_, ?_⟩
  · intro acc h t ts hl _
    exact ((reachable_AccInv acc h).2 t ts hl).1
  · intro B row t ts hts
    exact (token_stats_row_update_bounds B row t ts).2 hts
  · intro a b ha hb
    exact (TokenStats_iadd_inv a b a.frequency b.frequency ⟨ha, ha⟩ ⟨hb, hb⟩).1

/-- The reachable accumulator used by the C4 and C10 witnesses: one string
row `["a", "a"]` with tracked token `"a"`. -/
def accReach : PartialNLStats :=
  compute_str_statistics ["a", "a"] {} [] [] [] none [] ["a"] 4

theorem accReach_Reachable : Reachable accReach :=
  Reachable.str_row {} ["a", "a"] [] [] [] none [] ["a"] 4 List.nodup_nil
    (by decide) Reachable.create

theorem frequency_ge_num_sequences_witness :
    tsLookup accReach.token_statistics (Token.str "a") =
      some { frequency := 2, num_sequences := 1, per_sequence_min_frequency := some 2,
             per_sequence_max_frequency := some 2, positions := [(0, 1), (2, 1)] } ∧
    (0 : Nat) < 1 ∧ (1 : Nat) ≤ 2 := by
  refine ⟨by decide, by decide, ?_⟩
  exact frequency_ge_num_sequences.1 accReach accReach_Reachable (Token.str "a")
    { frequency := 2, num_sequences := 1, per_sequence_min_frequency := some 2,
      per_sequence_max_frequency := some 2, positions := [(0, 1), (2, 1)] }
    (by decide) (by decide)

/-- C10: on every reachable accumulator, each token-statistics entry has
`num_sequences ≤ num_examples`; hence whenever extraction computes
`fraction_of_sequences` for a token with `num_sequences > 0` the denominator
`num_examples` is positive and the fraction lies in `(0, 1]`. -/
theorem num_sequences_le_num_examples :
    (∀ (acc : PartialNLStats), Reachable acc → ∀ (t : Token) (ts : TokenStats),
      tsLookup acc.token_statistics t = some ts →
      ts.num_sequences ≤ acc.num_examples) ∧
    (∀ (acc : PartialNLStats), Reachable acc → ∀ (t : Token) (ts : TokenStats)
      (num_histogram_buckets : Nat),
      tsLookup acc.token_statistics t = some ts → 0 < ts.num_sequences →
      0 < acc.num_examples ∧
      0 < (populate_token_statistics t num_histogram_buckets acc.num_examples
        ts).1.fraction_of_sequences ∧
      (populate_token_statistics t num_histogram_buckets acc.num_examples
        ts).1.fraction_of_sequences ≤ 1) := by
  have hbase : ∀ (acc : PartialNLStats), Reachable acc → ∀ (t : Token) (ts : TokenStats),
      tsLookup acc.token_statistics t = some ts → ts.num_sequences ≤ acc.num_examples :=
    fun acc h t ts hl => ((reachable_AccInv acc h).2 t ts hl).2
  refine ⟨hbase, ?_⟩
  intro acc h t ts B hl hpos
  have hle := hbase acc h t ts hl
  have hne : 0 < acc.num_examples := lt_of_lt_of_le hpos hle
  have hfos : (populate_token_statistics t B acc.num_examples ts).1.fraction_of_sequences =
      ratDivNat ts.num_sequences acc.num_examples := by
    rw [populate_token_statistics, if_pos (Nat.pos_iff_ne_zero.mp hpos)]
  refine ⟨hne, ?_, ?_⟩
  · rw [hfos, ratDivNat_eq_div]
    apply div_pos
    · exact_mod_cast hpos
    · exact_mod_cast hne
  · rw [hfos, ratDivNat_eq_div]
    rw [div_le_one (by exact_mod_cast hne)]
    exact_mod_cast hle

theorem num_sequences_le_num_examples_witness :
    tsLookup accReach.token_statistics (Token.str "a") =
      some { frequency := 2, num_sequences := 1, per_sequence_min_frequency := some 2,
             per_sequence_max_frequency := some 2, positions := [(0, 1), (2, 1)] } ∧
    (0 : Nat) < 1 ∧
    (0 < accReach.num_examples ∧
     0 < (populate_token_statistics (Token.str "a") 4 accReach.num_examples
       { frequency := 2, num_sequences := 1, per_sequence_min_frequency := some 2,
         per_sequence_max_frequency := some 2,
         positions := [(0, 1), (2, 1)] }).1.fraction_of_sequences ∧
     (populate_token_statistics (Token.str "a") 4 accReach.num_examples
       { frequency := 2, num_sequences := 1, per_sequence_min_frequency := some 2,
         per_sequence_max_frequency := some 2,
         positions := [(0, 1), (2, 1)] }).1.fraction_of_sequences ≤ 1) := by
  refine ⟨by decide, by decide, ?_⟩
  exact num_sequences_le_num_examples.2 accReach accReach_Reachable (Token.str "a")
    { frequency := 2, num_sequences := 1, per_sequence_min_frequency := some 2,
      per_sequence_max_frequency := some 2, positions := [(0, 1), (2, 1)] } 4
    (by decide) (by decide)

/-! ### Bounded top-K reported-sequence sampling (C6) -/

/-- All metric values in a candidate list are pairwise distinct. -/
abbrev MetricsNodup (l : List ReportedSequence) : Prop := (l.map Prod.snd).Nodup

/-- `r` is the list of the `NUM_REPORTED_SEQUENCES_PER_TYPE` smallest-metric
entries of `l`, in ascending metric order: strictly sorted by metric, of
length `min K |l|`, drawn from `l`, and downward closed (any candidate with a
smaller metric than a retained entry is itself retained). -/
def IsTopK (l r : List ReportedSequence) : Prop :=
  r.Pairwise (fun a b => a.2 < b.2) ∧
  r.length = min NUM_REPORTED_SEQUENCES_PER_TYPE l.length ∧
  (∀ x, x ∈ r → x ∈ l) ∧
  (∀ x y, x ∈ r → y ∈ l → y.2 < x.2 → y ∈ r)

theorem metricsNodup_pairwise (l : List ReportedSequence) (h : MetricsNodup l) :
    l.Pairwise (fun a b => a.2 ≠ b.2) := List.pairwise_map.mp h

theorem sort_and_truncate_isTopK (l : List ReportedSequence) (h : MetricsNodup l) :
    IsTopK l (sort_and_truncate_reported_sequence l) := by
  haveI instTot : IsTotal ReportedSequence (fun a b => a.2 ≤ b.2) :=
    ⟨fun a b => le_total a.2 b.2⟩
  haveI instTrans : IsTrans ReportedSequence (fun a b => a.2 ≤ b.2) :=
    ⟨fun a b c h1 h2 => le_trans h1 h2⟩
  have hst : sort_and_truncate_reported_sequence l =
      (List.insertionSort (fun a b => a.2 ≤ b.2) l).take NUM_REPORTED_SEQUENCES_PER_TYPE :=
    rfl
  have hperm : List.Perm (List.insertionSort (fun a b => a.2 ≤ b.2) l) l :=
    List.perm_insertionSort _ l
  have hsorted : (List.insertionSort (fun a b => a.2 ≤ b.2) l).Pairwise
      (fun a b => a.2 ≤ b.2) := List.sorted_insertionSort _ l
  have hne : (List.insertionSort (fun a b => a.2 ≤ b.2) l).Pairwise
      (fun a b => a.2 ≠ b.2) :=
    (hperm.pairwise_iff (fun hxy => hxy.symm)).mpr (metricsNodup_pairwise l h)
  have hlt : (List.insertionSort (fun a b => a.2 ≤ b.2) l).Pairwise
      (fun a b => a.2 < b.2) :=
    (hsorted.and hne).imp (fun hab => lt_of_le_of_ne hab.1 hab.2)
  rw [hst]
  refine ⟨?_, ?_, ?_, ?_⟩
  · exact List.Pairwise.sublist (List.take_sublist _ _) hlt
  · rw [List.length_take, List.length_insertionSort]
  · intro x hx
    exact (List.mem_insertionSort _).mp ((List.take_sublist _ _).subset hx)
  · intro x y hx hy hlt2
    have hy_s : y ∈ List.insertionSort (fun a b => a.2 ≤ b.2) l :=
      (List.mem_insertionSort _).mpr hy
    rw [← List.take_append_drop NUM_REPORTED_SEQUENCES_PER_TYPE
      (List.insertionSort (fun a b => a.2 ≤ b.2) l)] at hy_s
    rcases List.mem_append.mp hy_s with hyt | hyd
    · exact hyt
    · exfalso
      have hps := List.pairwise_append.mp
        (show List.Pairwise (fun a b : ReportedSequence => a.2 ≤ b.2)
            (List.take NUM_REPORTED_SEQUENCES_PER_TYPE
              (List.insertionSort (fun a b => a.2 ≤ b.2) l) ++
             List.drop NUM_REPORTED_SEQUENCES_PER_TYPE
              (List.insertionSort (fun a b => a.2 ≤ b.2) l)) from by
          rw [List.take_append_drop]
          exact hsorted)
      exact absurd hlt2 (not_lt.mpr (hps.2.2 x hx y hyd))

theorem isTopK_nodup (l r : List ReportedSequence) (h : IsTopK l r) : r.Nodup :=
  h.1.imp (fun hab heq => absurd (heq ▸ hab) (lt_irrefl _))

/-- Inserting one more candidate into a maintained top-K list (append, sort,
truncate) produces the top-K list of the extended candidate collection. -/
theorem insert_isTopK (l : List ReportedSequence) (c : ReportedSequence)
    (r : List ReportedSequence) (h : MetricsNodup (l ++ [c])) (hr : IsTopK l r) :
    IsTopK (l ++ [c]) (insert_reported_sequence r c) := by
  have hh : (l.map Prod.snd ++ [c.2]).Nodup := by
    have hx := h
    rwa [MetricsNodup, List.map_append] at hx
  obtain ⟨hl_nodup, hsing, hdisj⟩ := List.nodup_append.mp hh
  have hc2 : c.2 ∉ l.map Prod.snd := fun hmem => hdisj hmem (List.mem_singleton.mpr rfl)
  have hmnl : MetricsNodup l := hl_nodup
  have hrmet : (r.map Prod.snd).Nodup :=
    (List.pairwise_map.mpr hr.1).imp (fun hab => ne_of_lt hab)
  have hrc : MetricsNodup (r ++ [c]) := by
    rw [MetricsNodup, List.map_append]
    refine (List.nodup_append).mpr ⟨hrmet, List.nodup_singleton _, ?_⟩
    intro a ha hb
    obtain ⟨x, hx, hxa⟩ := List.mem_map.mp ha
    apply hc2
    rw [← List.mem_singleton.mp hb, ← hxa]
    exact List.mem_map_of_mem Prod.snd (hr.2.2.1 x hx)
  have h1 : IsTopK (r ++ [c]) (insert_reported_sequence r c) :=
    sort_and_truncate_isTopK (r ++ [c]) hrc
  obtain ⟨hs1, hs2, hs3, hs4⟩ := h1
  obtain ⟨hp1, hp2, hp3, hp4⟩ := hr
  refine ⟨hs1, ?_, ?_, ?_⟩
  · rw [hs2, List.length_append, List.length_append, hp2]
    simp only [List.length_singleton]
    omega
  · intro x hx
    rcases List.mem_append.mp (hs3 x hx) with hxr | hxc
    · exact List.mem_append_left _ (hp3 x hxr)
    · exact List.mem_append_right _ hxc
  · intro x y hx hy hxy
    by_cases hyrc : y ∈ r ++ [c]
    · exact hs4 x y hx hyrc hxy
    · have hyl : y ∈ l := by
        rcases List.mem_append.mp hy with h1' | h2'
        · exact h1'
        · exact absurd (List.mem_append_right r h2') hyrc
      have hyr : y ∉ r := fun hyr => hyrc (List.mem_append_left _ hyr)
      exfalso
      have hinj := List.inj_on_of_nodup_map (show (l.map Prod.snd).Nodup from hmnl)
      have hbelow : ∀ z, z ∈ r → z.2 < y.2 := by
        intro z hz
        have hzl : z ∈ l := hp3 z hz
        have hzne : z.2 ≠ y.2 := fun heq => hyr ((hinj hzl hyl heq) ▸ hz)
        rcases lt_or_gt_of_ne hzne with hlt | hgt
        · exact hlt
        · exact absurd (hp4 z y hz hyl hgt) hyr
      have hrnodup : r.Nodup := isTopK_nodup l r ⟨hp1, hp2, hp3, hp4⟩
      have hKfull : r.length = NUM_REPORTED_SEQUENCES_PER_TYPE := by
        rcases Nat.lt_or_ge l.length NUM_REPORTED_SEQUENCES_PER_TYPE with hsmall | hbig
        · exfalso
          have hlen : r.length = l.length := by
            rw [hp2]
            omega
          have hrsub : r ⊆ l := fun x hx => hp3 x hx
          have hperm : List.Perm r l :=
            (hrnodup.subperm hrsub).perm_of_length_le (by omega)
          exact hyr (hperm.mem_iff.mpr hyl)
        · rw [hp2]
          omega
      rcases List.mem_append.mp (hs3 x hx) with hxr | hxc
      · exact absurd (hbelow x hxr) (not_lt.mpr (le_of_lt hxy))
      · rcases List.mem_singleton.mp hxc with rfl
        have hrsubres : ∀ z ∈ r, z ∈ insert_reported_sequence r x := by
          intro z hz
          exact hs4 x z hx (List.mem_append_left _ hz) (lt_trans (hbelow z hz) hxy)
        have hcr : x ∉ r := by
          intro hcr
          apply hc2
          exact List.mem_map_of_mem Prod.snd (hp3 x hcr)
        have hcnodup : (x :: r).Nodup := List.nodup_cons.mpr ⟨hcr, hrnodup⟩
        have hsubres : (x :: r) ⊆ insert_reported_sequence r x := by
          intro z hz
          rcases List.mem_cons.mp hz with rfl | hzr
          · exact hx
          · exact hrsubres z hzr
        have hlenle := (hcnodup.subperm hsubres).length_le
        rw [List.length_cons, hKfull, hs2, List.length_append, hKfull] at hlenle
        simp only [List.length_singleton] at hlenle
        omega

/-- C6: each reported-sequence sample list is capped at
`_NUM_REPORTED_SEQUENCES_PER_TYPE = 5` entries; both candidate insertion and
accumulator merge concatenate, stably sort ascending by metric, and truncate
to the first K entries; and feeding any collection of candidates with
pairwise-distinct metric values through the insertion path retains exactly
the `min K n` entries with smallest metric values, in ascending order
(`IsTopK`). -/
theorem reported_sequences_top_k :
    (∀ sequence : List ReportedSequence,
      (sort_and_truncate_reported_sequence sequence).length ≤
        NUM_REPORTED_SEQUENCES_PER_TYPE) ∧
    (∀ A B : PartialNLStats,
      (A.iadd B).reported_sequences_coverage =
        sort_and_truncate_reported_sequence
          (A.reported_sequences_coverage ++ B.reported_sequences_coverage) ∧
      (A.iadd B).reported_sequences_avg_token_length =
        sort_and_truncate_reported_sequence
          (A.reported_sequences_avg_token_length ++
            B.reported_sequences_avg_token_length)) ∧
    (∀ (cur_list : List ReportedSequence) (cand : ReportedSequence),
      insert_reported_sequence cur_list cand =
        (List.insertionSort (fun a b => a.2 ≤ b.2) (cur_list ++ [cand])).take
          NUM_REPORTED_SEQUENCES_PER_TYPE) ∧
    (∀ l : List ReportedSequence, MetricsNodup l →
      IsTopK l (l.foldl insert_reported_sequence [])) := by
  refine ⟨?_, fun A B => ⟨rfl, rfl⟩, fun cur c => rfl, ?_⟩
  · intro sequence
    exact List.length_take_le _ _
  · intro l
    induction l using List.reverseRecOn with
    | nil =>
      intro hl
      exact ⟨List.Pairwise.nil, by simp, fun x hx => absurd hx (List.not_mem_nil x),
        fun x y hx => absurd hx (List.not_mem_nil x)⟩
    | append_singleton l c ih =>
      intro hl
      have hml : MetricsNodup l := by
        have hx := hl
        rw [MetricsNodup, List.map_append] at hx
        exact hx.of_append_left
      rw [List.foldl_append, List.foldl_cons, List.foldl_nil]
      exact insert_isTopK l c _ hl (ih hml)

/-- The eight (K+3) candidates with distinct metrics used by the C6
witness. -/
def candsW : List ReportedSequence := (List.range 8).map (fun k => ([], ratDivNat k 1))

theorem reported_sequences_top_k_witness :
    MetricsNodup candsW ∧
    (candsW.foldl insert_reported_sequence []).length =
      min NUM_REPORTED_SEQUENCES_PER_TYPE candsW.length ∧
    (candsW.foldl insert_reported_sequence []).Pairwise (fun a b => a.2 < b.2) := by
  have h := reported_sequences_top_k.2.2.2 candsW (by decide)
  exact ⟨by decide, h.2.1, h.1⟩

end NLStatsGen
